import Mathlib

/-!
# Verification of the TXA codec (ascii-craft)

Shallow embedding of the TXA binary codec: the encoder from
`vite.config.js` (`TXAEncoder`, `compress`, `calculateDelta`, …) and the
decoder from `src/TXADecoder.ts` (`TXADecoder`, `decompress`, …).

Bytes are modelled as `Nat` values; every store into a JavaScript
`Uint8Array` is modelled by an explicit `% 256`.  Reads past the end of a
`Uint8Array` (which yield `undefined`, coerced to `0` where the code does
arithmetic on them) are modelled with `List.getD _ 0`; reads whose
`undefined` result is only compared with `!==` are modelled with
`List.get?` so that a missing entry compares unequal to every number.
-/

namespace TXA

/-- One animation cell: `[lum]` in gradient mode, `[r, g, b]` in
full-color mode (a JS `number[]`). -/
abbrev Cell := List Nat

/-- A grid addressed `[x][y]`: a JS `number[][][]`. -/
abbrev Grid := List (List Cell)

/-- An RGB triplet. -/
structure RGB where
  r : Nat
  g : Nat
  b : Nat
deriving DecidableEq, Repr

/-! ## Byte compressor (encoder side, `vite.config.js`) -/

/-- Tail of `deltaEncode`: each output byte is
`(data[i] - data[i-1] + 256) & 0xff`, given the previous input byte. -/
def deltaEncodeGo (prev : Nat) : List Nat → List Nat
  | [] => []
  | a :: rest => ((a + 256 - prev) % 256) :: deltaEncodeGo a rest

/-- `deltaEncode` (vite.config.js): differential coding; the first output
byte is the first input byte (stored into a `Uint8Array`, hence `% 256`). -/
def deltaEncode : List Nat → List Nat
  | [] => []
  | a :: rest => (a % 256) :: deltaEncodeGo a rest

/-- Length of the maximal run of `v` at the head of the list. -/
def leadRunAux (v : Nat) : List Nat → Nat
  | [] => 0
  | a :: rest => if a = v then leadRunAux v rest + 1 else 0

/-- Length of the maximal leading run (the run of the head element). -/
def leadRun : List Nat → Nat
  | [] => 0
  | a :: rest => leadRunAux a rest + 1

/-- The literal-length scan of `rleEncode`: starting from the current
position, count positions (up to the remaining budget, initially 254)
until a fresh run of length ≥ 3 begins or the data ends.  The 255 cap on
the inner run counter of the source cannot change the `≥ 3` test, so the
uncapped `leadRun` is used. -/
def literalLen : List Nat → Nat → Nat
  | [], _ => 0
  | _ :: _, 0 => 0
  | a :: rest, budget + 1 =>
    if leadRun (a :: rest) ≥ 3 then 0 else literalLen rest budget + 1

/-- `rleEncode` (vite.config.js): whenever the leading run (capped at
255) has length ≥ 3 emit `(255, runLength, value)`; otherwise emit a
literal block `(literalCount, bytes…)` whose extent is given by the
literal scan (with the source's `literalLength === 0` guard as `max _ 1`). -/
def rleEncode : List Nat → List Nat
  | [] => []
  | a :: rest =>
    if min (leadRun (a :: rest)) 255 ≥ 3 then
      255 :: min (leadRun (a :: rest)) 255 :: a ::
        rleEncode ((a :: rest).drop (min (leadRun (a :: rest)) 255))
    else
      max (literalLen (a :: rest) 254) 1 ::
        ((a :: rest).take (max (literalLen (a :: rest) 254) 1) ++
          rleEncode ((a :: rest).drop (max (literalLen (a :: rest) 254) 1)))
termination_by l => l.length
decreasing_by
  · simp only [List.length_drop, List.length_cons]
    omega
  · simp only [List.length_drop, List.length_cons]
    omega

/-- `compress` (vite.config.js): differential coding then run-length
coding. -/
def compress (data : List Nat) : List Nat :=
  rleEncode (deltaEncode data)

/-! ## Byte decompressor (decoder side, `TXADecoder.ts`) -/

/-- Tail of `deltaDecode`: running prefix sum modulo 256. -/
def deltaDecodeGo (prev : Nat) : List Nat → List Nat
  | [] => []
  | a :: rest => ((prev + a) % 256) :: deltaDecodeGo ((prev + a) % 256) rest

/-- `deltaDecode` (TXADecoder.ts): prefix-sum decoding; the first output
byte is the first input byte (stored into a `Uint8Array`, hence `% 256`). -/
def deltaDecode : List Nat → List Nat
  | [] => []
  | a :: rest => (a % 256) :: deltaDecodeGo (a % 256) rest

/-- `rleDecode` (TXADecoder.ts): a leading `255` byte introduces a run
triplet, any other leading byte is a literal count. The output stops at
`expectedSize` elements (`cap` is the remaining capacity); short reads
past the end of the input behave like the source's `undefined` reads
(a missing run count yields zero copies, missing literal bytes end the
block). -/
def rleDecode : List Nat → Nat → List Nat
  | _, 0 => []
  | [], _ + 1 => []
  | marker :: rest, cap + 1 =>
    if marker = 255 then
      List.replicate (min (rest.getD 0 0) (cap + 1)) (rest.getD 1 0) ++
        rleDecode (rest.drop 2) (cap + 1 - min (rest.getD 0 0) (cap + 1))
    else
      rest.take (min marker (min rest.length (cap + 1))) ++
        rleDecode (rest.drop (min marker (min rest.length (cap + 1))))
          (cap + 1 - min marker (min rest.length (cap + 1)))
termination_by data _ => data.length
decreasing_by
  · simp only [List.length_drop, List.length_cons]
    omega
  · simp only [List.length_drop, List.length_cons]
    omega

/-- `decompress` (TXADecoder.ts): run-length decoding to the expected
size, then differential decoding. -/
def decompress (data : List Nat) (expectedSize : Nat) : List Nat :=
  deltaDecode (rleDecode data expectedSize)

/-! ## Inverse laws of the compressor -/

theorem deltaEncodeGo_length (prev : Nat) (l : List Nat) :
    (deltaEncodeGo prev l).length = l.length := by
  induction l generalizing prev with
  | nil => rfl
  | cons a rest ih => simp [deltaEncodeGo, ih]

theorem deltaEncode_length (l : List Nat) : (deltaEncode l).length = l.length := by
  cases l with
  | nil => rfl
  | cons a rest => simp [deltaEncode, deltaEncodeGo_length]

theorem deltaDecodeGo_deltaEncodeGo : ∀ (rest : List Nat) (prev : Nat),
    (∀ b ∈ rest, b < 256) → prev < 256 →
    deltaDecodeGo prev (deltaEncodeGo prev rest) = rest := by
  intro rest
  induction rest with
  | nil => intro prev _ _; rfl
  | cons a rest ih =>
    intro prev hrest hprev
    have ha : a < 256 := hrest a (List.mem_cons_self a rest)
    have hkey : (prev + (a + 256 - prev) % 256) % 256 = a := by omega
    simp only [deltaEncodeGo, deltaDecodeGo, hkey]
    exact congrArg (a :: ·) (ih a (fun b hb => hrest b (List.mem_cons_of_mem a hb)) ha)

theorem deltaDecode_deltaEncode (l : List Nat) (h : ∀ b ∈ l, b < 256) :
    deltaDecode (deltaEncode l) = l := by
  cases l with
  | nil => rfl
  | cons a rest =>
    have ha : a < 256 := h a (List.mem_cons_self a rest)
    have hmod : a % 256 = a := Nat.mod_eq_of_lt ha
    simp only [deltaEncode, deltaDecode, hmod]
    exact congrArg (a :: ·)
      (deltaDecodeGo_deltaEncodeGo rest a (fun b hb => h b (List.mem_cons_of_mem a hb)) ha)

theorem leadRunAux_le_length (v : Nat) (l : List Nat) : leadRunAux v l ≤ l.length := by
  induction l generalizing v with
  | nil => exact Nat.le_refl 0
  | cons a rest ih =>
    simp only [leadRunAux, List.length_cons]
    split
    · exact Nat.succ_le_succ (ih v)
    · exact Nat.zero_le _

theorem leadRun_le_length (l : List Nat) : leadRun l ≤ l.length := by
  cases l with
  | nil => exact Nat.le_refl 0
  | cons a rest =>
    simpa [leadRun] using Nat.succ_le_succ (leadRunAux_le_length a rest)

theorem take_of_le_leadRunAux (v : Nat) (l : List Nat) (k : Nat)
    (h : k ≤ leadRunAux v l) : l.take k = List.replicate k v := by
  induction l generalizing v k with
  | nil =>
    simp only [leadRunAux] at h
    simp [Nat.le_zero.mp h]
  | cons a rest ih =>
    simp only [leadRunAux] at h
    by_cases hav : a = v
    · subst hav
      rw [if_pos rfl] at h
      cases k with
      | zero => rfl
      | succ k' =>
        simp only [List.take_succ_cons, List.replicate_succ]
        exact congrArg (a :: ·) (ih a k' (Nat.le_of_succ_le_succ h))
    · rw [if_neg hav] at h
      simp [Nat.le_zero.mp h]

theorem take_of_le_leadRun (a : Nat) (rest : List Nat) (k : Nat)
    (h : k ≤ leadRun (a :: rest)) : (a :: rest).take k = List.replicate k a := by
  simp only [leadRun] at h
  cases k with
  | zero => rfl
  | succ k' =>
    simp only [List.take_succ_cons, List.replicate_succ]
    exact congrArg (a :: ·) (take_of_le_leadRunAux a rest k' (Nat.le_of_succ_le_succ h))

theorem literalLen_le_budget (l : List Nat) (b : Nat) : literalLen l b ≤ b := by
  induction l generalizing b with
  | nil => simp [literalLen]
  | cons a rest ih =>
    cases b with
    | zero => simp [literalLen]
    | succ b' =>
      simp only [literalLen]
      split
      · exact Nat.zero_le _
      · exact Nat.succ_le_succ (ih b')

theorem literalLen_le_length (l : List Nat) (b : Nat) : literalLen l b ≤ l.length := by
  induction l generalizing b with
  | nil => simp [literalLen]
  | cons a rest ih =>
    cases b with
    | zero => simp [literalLen]
    | succ b' =>
      simp only [literalLen, List.length_cons]
      split
      · exact Nat.zero_le _
      · exact Nat.succ_le_succ (ih b')

theorem rleDecode_nil (cap : Nat) : rleDecode [] cap = [] := by
  cases cap <;> simp [rleDecode]

/-- One run-triplet step of `rleDecode`, when capacity suffices. -/
theorem rleDecode_run_step (count value : Nat) (rest : List Nat) (cap : Nat)
    (hc : 0 < cap) (hcount : count ≤ cap) :
    rleDecode (255 :: count :: value :: rest) cap =
      List.replicate count value ++ rleDecode rest (cap - count) := by
  obtain ⟨c, rfl⟩ : ∃ c, cap = c + 1 := ⟨cap - 1, by omega⟩
  rw [rleDecode]
  rw [if_pos rfl]
  have h1 : (count :: value :: rest).getD 0 0 = count := rfl
  have h2 : (count :: value :: rest).getD 1 0 = value := rfl
  have h3 : (count :: value :: rest).drop 2 = rest := rfl
  rw [h1, h2, h3, Nat.min_eq_left hcount]

/-- One literal-block step of `rleDecode`, when capacity suffices. -/
theorem rleDecode_lit_step (n : Nat) (bytes rest : List Nat) (cap : Nat)
    (hn : n ≠ 255) (hb : bytes.length = n) (hc : 0 < cap) (hcap : n ≤ cap) :
    rleDecode (n :: (bytes ++ rest)) cap = bytes ++ rleDecode rest (cap - n) := by
  obtain ⟨c, rfl⟩ : ∃ c, cap = c + 1 := ⟨cap - 1, by omega⟩
  rw [rleDecode]
  rw [if_neg hn]
  have hlen : (bytes ++ rest).length ≥ n := by
    simp only [List.length_append]
    omega
  have hmin : min n (min (bytes ++ rest).length (c + 1)) = n := by omega
  rw [hmin, List.take_left' hb, List.drop_left' hb]

/-- Run-length decoding undoes run-length encoding, block by block: an
encoded stream followed by trailing data decodes to the original bytes
followed by the decoding of the trailer against the leftover capacity. -/
theorem rleDecode_rleEncode_append (l : List Nat) :
    ∀ (tail : List Nat) (cap : Nat), l.length ≤ cap →
      rleDecode (rleEncode l ++ tail) cap = l ++ rleDecode tail (cap - l.length) := by
  induction l using rleEncode.induct with
  | case1 =>
    intro tail cap _
    simp [rleEncode]
  | case2 a rest hrun ih =>
    intro tail cap hcap
    have hcap' : rest.length + 1 ≤ cap := by simpa using hcap
    have hlen : min (leadRun (a :: rest)) 255 ≤ rest.length + 1 := by
      have h1 := leadRun_le_length (a :: rest)
      simp only [List.length_cons] at h1
      omega
    have hc : 0 < cap := by omega
    have hlen' : ((a :: rest).drop (min (leadRun (a :: rest)) 255)).length ≤
        cap - min (leadRun (a :: rest)) 255 := by
      simp only [List.length_drop, List.length_cons]
      omega
    rw [rleEncode, if_pos hrun, List.cons_append, List.cons_append, List.cons_append,
      rleDecode_run_step _ _ _ _ hc (by omega), ih tail _ hlen',
      ← List.append_assoc,
      ← take_of_le_leadRun a rest _ (Nat.min_le_left _ _), List.take_append_drop]
    congr 2
    simp only [List.length_drop, List.length_cons]
    omega
  | case3 a rest hrun ih =>
    intro tail cap hcap
    have hcap' : rest.length + 1 ≤ cap := by simpa using hcap
    have hll_budget : literalLen (a :: rest) 254 ≤ 254 := literalLen_le_budget _ _
    have hll_le : literalLen (a :: rest) 254 ≤ rest.length + 1 := by
      have h1 := literalLen_le_length (a :: rest) 254
      simpa using h1
    have hmax_le : max (literalLen (a :: rest) 254) 1 ≤ rest.length + 1 := by omega
    have hc : 0 < cap := by omega
    have hne255 : max (literalLen (a :: rest) 254) 1 ≠ 255 := by omega
    have htakelen : ((a :: rest).take (max (literalLen (a :: rest) 254) 1)).length =
        max (literalLen (a :: rest) 254) 1 := by
      simp only [List.length_take, List.length_cons]
      omega
    have hlen' : ((a :: rest).drop (max (literalLen (a :: rest) 254) 1)).length ≤
        cap - max (literalLen (a :: rest) 254) 1 := by
      simp only [List.length_drop, List.length_cons]
      omega
    rw [rleEncode, if_neg hrun, List.cons_append, List.append_assoc,
      rleDecode_lit_step _ _ _ _ hne255 htakelen hc (by omega),
      ih tail _ hlen', ← List.append_assoc, List.take_append_drop]
    congr 2
    simp only [List.length_drop, List.length_cons]
    omega

/-- Decoding an encoded stream at its exact original size recovers the
original bytes. -/
theorem rleDecode_rleEncode (l : List Nat) :
    rleDecode (rleEncode l) l.length = l := by
  have h := rleDecode_rleEncode_append l [] l.length (Nat.le_refl _)
  simpa [rleDecode_nil] using h

/-- The compressor inverse law, independent of the claim statement:
decompressing a compressed byte list at its original length recovers it. -/
theorem decompress_compress (x : List Nat) (hx : ∀ b ∈ x, b < 256) :
    decompress (compress x) x.length = x := by
  unfold decompress compress
  rw [← deltaEncode_length x, rleDecode_rleEncode (deltaEncode x)]
  exact deltaDecode_deltaEncode x hx

/-- C2.  Compressor inverse law: for every non-empty byte sequence `x`,
`decompress(compress(x), length(x)) = x`, and `compress` of the empty
sequence is empty. -/
theorem C2_compress_decompress_inverse :
    (∀ x : List Nat, x ≠ [] → (∀ b ∈ x, b < 256) →
      decompress (compress x) x.length = x) ∧ compress [] = [] :=
  ⟨fun x _ hx => decompress_compress x hx, by simp [compress, deltaEncode, rleEncode]⟩

/-- C2 witness: the inverse law at the concrete byte list
`[7, 7, 7, 7, 200]` (a run followed by a literal). -/
theorem C2_witness : decompress (compress [7, 7, 7, 7, 200]) 5 = [7, 7, 7, 7, 200] :=
  C2_compress_decompress_inverse.1 [7, 7, 7, 7, 200] (by decide) (by decide)

/-! ## Well-formedness of the RLE output (C10) -/

/-- Well-formed RLE streams: a concatenation of blocks, each either a
run triplet `255, runLength, value` with `runLength ∈ [3, 255]`, or a
literal block `literalCount, b₀, …` with `literalCount ∈ [1, 254]`
followed by exactly `literalCount` data bytes.  Since a literal count is
never 255, the decoder's dispatch on the marker byte is unambiguous. -/
inductive WFBlocks : List Nat → Prop
  | nil : WFBlocks []
  | run (r v : Nat) (rest : List Nat) : 3 ≤ r → r ≤ 255 → WFBlocks rest →
      WFBlocks (255 :: r :: v :: rest)
  | lit (n : Nat) (bs rest : List Nat) : 1 ≤ n → n ≤ 254 → bs.length = n →
      WFBlocks rest → WFBlocks (n :: (bs ++ rest))

/-- C10.  RLE output well-formedness: for every input byte array, the
output of `rleEncode` is a concatenation of well-formed blocks — run
triplets `(255, runLength ∈ [3,255], value)` or literal blocks
(`length ∈ [1,254]`, then exactly that many bytes), so the decoder's
marker dispatch on 255 is unambiguous. -/
theorem C10_rleEncode_wellformed (l : List Nat) : WFBlocks (rleEncode l) := by
  induction l using rleEncode.induct with
  | case1 =>
    simp only [rleEncode]
    exact WFBlocks.nil
  | case2 a rest hrun ih =>
    rw [rleEncode, if_pos hrun]
    exact WFBlocks.run _ a _ hrun (Nat.min_le_right _ _) ih
  | case3 a rest hrun ih =>
    rw [rleEncode, if_neg hrun]
    refine WFBlocks.lit _ _ _ (le_max_right _ _) ?_ ?_ ih
    · have := literalLen_le_budget (a :: rest) 254
      omega
    · have h1 := literalLen_le_length (a :: rest) 254
      simp only [List.length_cons] at h1
      simp only [List.length_take, List.length_cons]
      omega

/-! ## Luminance quantization (C7) -/

/-- `TXAEncoder.quantizeLuminance` (vite.config.js).  For `lumBits < 8`
every intermediate value is an exact integer (`step = 256 / 2^lumBits`
divides 256 evenly), so JavaScript's `Math.floor` of the division is
`Nat` division and the final `Math.round` is the identity. -/
def quantizeLuminance (lumBits lum : Nat) : Nat :=
  if 8 ≤ lumBits then lum
  else lum / (256 / 2 ^ lumBits) * (256 / 2 ^ lumBits) + 256 / 2 ^ lumBits / 2

/-- C7 counterexample: with `lumBits = 4` the luminance values 0 and 15
lie in the same 16-wide bucket, so they quantize to the same output
level 8 — not to different levels as claimed. -/
theorem C7_counterexample : quantizeLuminance 4 0 = 8 ∧ quantizeLuminance 4 15 = 8 := by
  decide

/-- C7 (amended).  With `lumBits = 4` the values 0 and 16 — the first
values of two adjacent buckets — quantize to different output levels,
and any two luminance values in the same bucket (equal `value / 16`)
quantize identically; in particular 0 and 15 quantize identically. -/
theorem C7_quantization_boundary :
    quantizeLuminance 4 0 ≠ quantizeLuminance 4 16 ∧
    ∀ a b : Nat, a / 16 = b / 16 → quantizeLuminance 4 a = quantizeLuminance 4 b := by
  constructor
  · decide
  · intro a b h
    have h16 : (256 : Nat) / 2 ^ 4 = 16 := by norm_num
    simp only [quantizeLuminance, if_neg (by norm_num : ¬ (8 ≤ 4)), h16, h]

/-- C7 witness: the same-bucket part of the amended claim at the
concrete same-bucket pair 3 and 9. -/
theorem C7_witness : quantizeLuminance 4 3 = quantizeLuminance 4 9 :=
  C7_quantization_boundary.2 3 9 (by decide)

/-! ## Encoder (`TXAEncoder`, vite.config.js) -/

/-- One encoded frame record: type 0 (keyframe) or 1 (delta), and the
payload bytes. -/
structure EncodedFrame where
  type : Nat
  data : List Nat
deriving DecidableEq, Repr

/-- The mutable state of a `TXAEncoder`: the configuration set by the
constructor, plus the frame list, color palette, last-keyframe snapshot
and frame counter. -/
structure EncoderState where
  width : Nat
  height : Nat
  fps : Nat
  colorMode : Nat
  characters : List Nat
  keyframeInterval : Nat
  bgColor : RGB
  changeSpeed : ℚ
  canvasRatio : Nat
  lumBits : Nat
  frames : List EncodedFrame
  colorPalette : List RGB
  lastKeyframe : Option Grid
  frameCount : Nat
deriving DecidableEq, Repr

/-- Cell lookup `grid[x]?.[y]` (`undefined`, i.e. `none`, out of range). -/
def cellAt (g : Grid) (x y : Nat) : Option Cell :=
  (g.get? x).bind fun col => col.get? y

/-- The per-cell preprocessing at the top of `addFrame`: quantize the
single luminance component in gradient mode, copy the first three
components in full-color mode.  (The source reads `cell[0]` etc.
directly; in-range cells always have the full arity, which `getD _ 0`
reflects.) -/
def processGrid (colorMode lumBits : Nat) (gridData : Grid) : Grid :=
  gridData.map fun col => col.map fun cell =>
    if colorMode = 0 then [quantizeLuminance lumBits (cell.getD 0 0)]
    else [cell.getD 0 0, cell.getD 1 0, cell.getD 2 0]

/-- `calculateDelta` (vite.config.js): scan `x` over the previous
frame's column count and `y` over its first column's length; a cell is
changed when one of its first `cellSize` components differs (`!==`, so
a missing component differs from every number, which `get?` equality on
`Option Nat` reflects); each changed cell contributes
`x, y, …currentCell`. -/
def calculateDelta (prevFrame currFrame : Grid) (cellSize : Nat) : List Nat :=
  (List.range prevFrame.length).flatMap fun x =>
    (List.range (prevFrame.getD 0 []).length).flatMap fun y =>
      let prev := (cellAt prevFrame x y).getD []
      let curr := (cellAt currFrame x y).getD []
      if (if cellSize = 1 then prev.get? 0 ≠ curr.get? 0
          else prev.get? 0 ≠ curr.get? 0 ∨ prev.get? 1 ≠ curr.get? 1 ∨
            prev.get? 2 ≠ curr.get? 2) then
        x :: y :: curr
      else []

/-- The keyframe flattening loop of `addFrame`: row-major scan (outer
`y`, inner `x`); `processedGrid[x]?.[y] || default` contributes the
all-zero cell for missing cells. -/
def flattenGrid (width height colorMode : Nat) (g : Grid) : List Nat :=
  (List.range height).flatMap fun y =>
    (List.range width).flatMap fun x =>
      (cellAt g x y).getD (if colorMode = 0 then [0] else [0, 0, 0])

/-- Write `cell` at `grid[x][y]` (`List.set` is a no-op out of range;
the loops using this never go out of range on well-shaped grids). -/
def setCell (g : Grid) (x y : Nat) (cell : Cell) : Grid :=
  g.set x ((g.getD x []).set y cell)

/-- The snapshot-update loop at the end of `addFrame`'s delta branch:
for every in-range `(x, y)` where the processed grid has a cell, copy
it into the snapshot. -/
def updateLastKeyframe (width height : Nat) (lastKf processed : Grid) : Grid :=
  (List.range width).foldl
    (fun acc x =>
      (List.range height).foldl
        (fun acc2 y =>
          match cellAt processed x y with
          | some cell => setCell acc2 x y cell
          | none => acc2)
        acc)
    lastKf

/-- `TXAEncoder.addFrame` (vite.config.js).  (When `keyframeInterval`
is 0 — which the constructor's `|| 30` default prevents — JavaScript's
`n % 0` is `NaN`, never 0; `Nat`'s `n % 0 = n` agrees with that test on
every reachable state, since `frameCount = 0` forces the keyframe
branch through `lastKeyframe = none` anyway.) -/
def addFrame (e : EncoderState) (gridData : Grid) : EncoderState :=
  let cellSize := if e.colorMode = 0 then 1 else 3
  let processedGrid := processGrid e.colorMode e.lumBits gridData
  if e.frameCount % e.keyframeInterval = 0 ∨ e.lastKeyframe = none then
    { e with
      frames := e.frames ++
        [⟨0, compress ((flattenGrid e.width e.height e.colorMode processedGrid).map (· % 256))⟩],
      lastKeyframe := some processedGrid,
      frameCount := e.frameCount + 1 }
  else
    { e with
      frames :=
        (if calculateDelta (e.lastKeyframe.getD []) processedGrid cellSize = [] then
          e.frames ++ [⟨1, [0, 0]⟩]
        else
          e.frames ++
            [⟨1, ((calculateDelta (e.lastKeyframe.getD []) processedGrid cellSize).length /
                  (2 + cellSize)) / 256 % 256 ::
                ((calculateDelta (e.lastKeyframe.getD []) processedGrid cellSize).length /
                  (2 + cellSize)) % 256 ::
                compress ((calculateDelta (e.lastKeyframe.getD []) processedGrid
                  cellSize).map (· % 256))⟩]),
      lastKeyframe := some (updateLastKeyframe e.width e.height (e.lastKeyframe.getD [])
        processedGrid),
      frameCount := e.frameCount + 1 }

/-- `TXAEncoder.reset` (vite.config.js). -/
def reset (e : EncoderState) : EncoderState :=
  { e with frames := [], lastKeyframe := none, frameCount := 0 }

/-- 16-bit little-endian serialization (`DataView.setUint16`). -/
def u16le (n : Nat) : List Nat := [n % 256, n / 256 % 256]

/-- 32-bit little-endian serialization (`DataView.setUint32`). -/
def u32le (n : Nat) : List Nat :=
  [n % 256, n / 256 % 256, n / 65536 % 256, n / 16777216 % 256]

/-- The 32-byte header section written by `TXAEncoder.encode`: magic,
version 2, color mode, 16-bit width and height, fps, 32-bit frame
count, palette sizes, background color, change speed (×10), canvas
ratio, luminance bit depth, and the 8 reserved bytes the pre-zeroed
`ArrayBuffer` leaves untouched. -/
def headerBytes (e : EncoderState) : List Nat :=
  [0x54, 0x58, 0x41, 0x00, 2, e.colorMode % 256] ++
  u16le e.width ++ u16le e.height ++ [e.fps % 256] ++ u32le e.frames.length ++
  [e.characters.length % 256] ++ u16le e.colorPalette.length ++
  [e.bgColor.r % 256, e.bgColor.g % 256, e.bgColor.b % 256] ++
  [(round (e.changeSpeed * 10)).toNat % 256, e.canvasRatio % 256, e.lumBits % 256] ++
  List.replicate 8 0

/-- The character-palette section (`charCodeAt` of each character). -/
def charBytes (e : EncoderState) : List Nat :=
  e.characters.map (· % 256)

/-- The color-palette section: one RGB triplet per entry. -/
def palBytes (e : EncoderState) : List Nat :=
  e.colorPalette.flatMap fun c => [c.r % 256, c.g % 256, c.b % 256]

/-- The frame section: for each frame a type byte, the 4-byte
little-endian payload length, and the payload bytes. -/
def frameBytes (e : EncoderState) : List Nat :=
  e.frames.flatMap fun f => f.type % 256 :: (u32le f.data.length ++ f.data)

/-- `TXAEncoder.encode` (vite.config.js): header, character palette,
color palette, then the frame records, in write order. -/
def encode (e : EncoderState) : List Nat :=
  headerBytes e ++ (charBytes e ++ (palBytes e ++ frameBytes e))

/-! ## Encoder frame effects (C9, C6, C5) -/

/-- C9.  `reset()` empties the frame list, clears the last-keyframe
snapshot and zeroes the frame counter, while leaving every
configuration field and the color palette unchanged. -/
theorem C9_reset_clears_session_state (e : EncoderState) :
    (reset e).frames = [] ∧ (reset e).lastKeyframe = none ∧ (reset e).frameCount = 0 ∧
    (reset e).width = e.width ∧ (reset e).height = e.height ∧ (reset e).fps = e.fps ∧
    (reset e).colorMode = e.colorMode ∧ (reset e).characters = e.characters ∧
    (reset e).keyframeInterval = e.keyframeInterval ∧ (reset e).bgColor = e.bgColor ∧
    (reset e).changeSpeed = e.changeSpeed ∧ (reset e).canvasRatio = e.canvasRatio ∧
    (reset e).lumBits = e.lumBits ∧ (reset e).colorPalette = e.colorPalette :=
  ⟨rfl, rfl, rfl, rfl, rfl, rfl, rfl, rfl, rfl, rfl, rfl, rfl, rfl, rfl⟩

/-- Comparing a grid with itself yields no changes: every `!==`
comparison is between identical values. -/
theorem calculateDelta_self (p : Grid) (cs : Nat) : calculateDelta p p cs = [] := by
  simp [calculateDelta]

/-- C6.  At a non-keyframe position, a grid whose processed form equals
the encoder's snapshot produces the degenerate delta frame: payload
exactly `[0, 0]`, no compression involved. -/
theorem C6_degenerate_delta (e : EncoderState) (g prev : Grid)
    (hkf : e.lastKeyframe = some prev)
    (hpos : ¬ e.frameCount % e.keyframeInterval = 0)
    (heq : processGrid e.colorMode e.lumBits g = prev) :
    (addFrame e g).frames = e.frames ++ [⟨1, [0, 0]⟩] := by
  simp only [addFrame, hkf, heq, Option.getD_some, calculateDelta_self, if_pos rfl]
  rw [if_neg]
  simp
  simp [hpos]

/-- Concrete encoder for the C6 witness: gradient mode, one frame past
a keyframe whose snapshot is the 1×1 grid `[[[5]]]`. -/
def C6_encoder : EncoderState :=
  { width := 1, height := 1, fps := 30, colorMode := 0, characters := [32],
    keyframeInterval := 30, bgColor := ⟨0, 0, 0⟩, changeSpeed := 2, canvasRatio := 0,
    lumBits := 8, frames := [⟨0, [1, 5]⟩], colorPalette := [],
    lastKeyframe := some [[[5]]], frameCount := 1 }

/-- C6 witness: resubmitting the snapshot grid appends the 2-byte
degenerate delta record. -/
theorem C6_witness :
    (addFrame C6_encoder [[[5]]]).frames = C6_encoder.frames ++ [⟨1, [0, 0]⟩] :=
  C6_degenerate_delta C6_encoder [[[5]]] [[[5]]] rfl (by decide) (by decide)

/-- `addFrame` always increments the frame counter. -/
theorem addFrame_frameCount (e : EncoderState) (g : Grid) :
    (addFrame e g).frameCount = e.frameCount + 1 := by
  by_cases h : e.frameCount % e.keyframeInterval = 0 ∨ e.lastKeyframe = none <;>
    simp [addFrame, h]

/-- The per-call effect of `addFrame` on the session fields: exactly one
frame record is appended, whose type is 0 on the keyframe branch and 1
otherwise; the counter increments; the snapshot becomes non-empty; the
keyframe interval is untouched. -/
theorem addFrame_step (e : EncoderState) (g : Grid) :
    ∃ d : List Nat,
      (addFrame e g).frames = e.frames ++
        [⟨if e.frameCount % e.keyframeInterval = 0 ∨ e.lastKeyframe = none then 0 else 1,
          d⟩] ∧
      (addFrame e g).frameCount = e.frameCount + 1 ∧
      (addFrame e g).lastKeyframe ≠ none ∧
      (addFrame e g).keyframeInterval = e.keyframeInterval := by
  by_cases h : e.frameCount % e.keyframeInterval = 0 ∨ e.lastKeyframe = none
  · refine ⟨compress ((flattenGrid e.width e.height e.colorMode
        (processGrid e.colorMode e.lumBits g)).map (· % 256)), ?_, ?_, ?_, ?_⟩ <;>
      simp [addFrame, h]
  · by_cases hd : calculateDelta (e.lastKeyframe.getD [])
        (processGrid e.colorMode e.lumBits g) (if e.colorMode = 0 then 1 else 3) = []
    · refine ⟨[0, 0], ?_, ?_, ?_, ?_⟩ <;> simp [addFrame, h, hd]
    · refine ⟨((calculateDelta (e.lastKeyframe.getD [])
          (processGrid e.colorMode e.lumBits g)
          (if e.colorMode = 0 then 1 else 3)).length /
            (2 + if e.colorMode = 0 then 1 else 3)) / 256 % 256 ::
        ((calculateDelta (e.lastKeyframe.getD [])
          (processGrid e.colorMode e.lumBits g)
          (if e.colorMode = 0 then 1 else 3)).length /
            (2 + if e.colorMode = 0 then 1 else 3)) % 256 ::
        compress ((calculateDelta (e.lastKeyframe.getD [])
          (processGrid e.colorMode e.lumBits g)
          (if e.colorMode = 0 then 1 else 3)).map (· % 256)), ?_, ?_, ?_, ?_⟩ <;>
        simp [addFrame, h, hd]

/-- The session invariant behind the keyframe cadence: the frame list
is as long as the counter, the snapshot is empty exactly before the
first frame, and every recorded frame's type follows the cadence. -/
def EncInv (k : Nat) (e : EncoderState) : Prop :=
  e.keyframeInterval = k ∧
  e.frames.length = e.frameCount ∧
  (e.lastKeyframe = none ↔ e.frameCount = 0) ∧
  ∀ i, i < e.frames.length →
    (e.frames.getD i ⟨0, []⟩).type = if i % k = 0 then 0 else 1

theorem EncInv_addFrame {k : Nat} {e : EncoderState} (g : Grid) (h : EncInv k e) :
    EncInv k (addFrame e g) := by
  obtain ⟨hk, hlen, hnone, htypes⟩ := h
  obtain ⟨d, hfr, hfc, hkf, hki⟩ := addFrame_step e g
  refine ⟨hki.trans hk, ?_, ?_, ?_⟩
  · rw [hfr, hfc, List.length_append, hlen]
    rfl
  · rw [hfc]
    exact ⟨fun hc => absurd hc hkf, fun hc => absurd hc (Nat.succ_ne_zero _)⟩
  · intro i hi
    rw [hfr] at hi ⊢
    rw [List.length_append, List.length_singleton] at hi
    rcases Nat.lt_or_ge i e.frames.length with hlt | hge
    · rw [List.getD_append _ _ _ _ hlt]
      exact htypes i hlt
    · have hieq : i = e.frames.length := by omega
      subst hieq
      rw [List.getD_append_right _ _ _ _ (Nat.le_refl _), Nat.sub_self]
      simp only [List.getD_cons_zero]
      by_cases hkey : e.frameCount % e.keyframeInterval = 0
      · have h2 : e.frames.length % k = 0 := by rw [hlen, ← hk]; exact hkey
        simp [hkey, h2]
      · have hnz : e.frameCount ≠ 0 := by
          intro hzero
          exact hkey (by rw [hzero]; exact Nat.zero_mod _)
        have hkfn : ¬ e.lastKeyframe = none := fun hc => hnz (hnone.mp hc)
        have h2 : ¬ e.frames.length % k = 0 := by rw [hlen, ← hk]; exact hkey
        simp [hkey, hkfn, h2]

theorem EncInv_foldl (k : Nat) (gs : List Grid) :
    ∀ e : EncoderState, EncInv k e → EncInv k (gs.foldl addFrame e) := by
  induction gs with
  | nil => intro e h; exact h
  | cons g gs ih =>
    intro e h
    exact ih (addFrame e g) (EncInv_addFrame g h)

theorem foldl_addFrame_frameCount (gs : List Grid) :
    ∀ e : EncoderState, (gs.foldl addFrame e).frameCount = e.frameCount + gs.length := by
  induction gs with
  | nil => intro e; rfl
  | cons g gs ih =>
    intro e
    rw [List.foldl_cons, ih (addFrame e g), addFrame_frameCount]
    simp only [List.length_cons]
    omega

/-- C5.  Keyframe cadence: starting from a fresh encoder with
`keyframeInterval = k`, the frame record at ordinal position `i` has
type 0 exactly when `i % k = 0` and type 1 otherwise. -/
theorem C5_keyframe_cadence (e0 : EncoderState) (k : Nat) (gs : List Grid)
    (hk : e0.keyframeInterval = k) (hk1 : 1 ≤ k)
    (hfr : e0.frames = []) (hkf : e0.lastKeyframe = none) (hfc : e0.frameCount = 0) :
    (gs.foldl addFrame e0).frames.length = gs.length ∧
    ∀ i, i < gs.length →
      ((gs.foldl addFrame e0).frames.getD i ⟨0, []⟩).type =
        if i % k = 0 then 0 else 1 := by
  have hinv : EncInv k e0 := by
    refine ⟨hk, ?_, ?_, ?_⟩
    · rw [hfr, hfc]; rfl
    · simp [hkf, hfc]
    · intro i hi
      rw [hfr] at hi
      simp at hi
  obtain ⟨_, hlen, _, htypes⟩ := EncInv_foldl k gs e0 hinv
  have hcount := foldl_addFrame_frameCount gs e0
  rw [hfc, Nat.zero_add] at hcount
  rw [hlen, hcount]
  exact ⟨rfl, fun i hi => htypes i (by rw [hlen, hcount]; exact hi)⟩

/-- Fresh encoder for the C5 witness, with `keyframeInterval = 2`. -/
def C5_encoder : EncoderState :=
  { width := 1, height := 1, fps := 30, colorMode := 0, characters := [32],
    keyframeInterval := 2, bgColor := ⟨0, 0, 0⟩, changeSpeed := 2, canvasRatio := 0,
    lumBits := 8, frames := [], colorPalette := [],
    lastKeyframe := none, frameCount := 0 }

/-- C5 witness: with `k = 2` and three submitted frames, the frame at
ordinal position 1 is a delta record. -/
theorem C5_witness :
    ((([[[[3]]], [[[4]]], [[[5]]]] : List Grid).foldl addFrame C5_encoder).frames.getD 1
      ⟨0, []⟩).type = if 1 % 2 = 0 then 0 else 1 :=
  (C5_keyframe_cadence C5_encoder 2 [[[[3]]], [[[4]]], [[[5]]]] rfl (by decide) rfl rfl
    rfl).2 1 (by decide)

/-! ## Decoder (`TXADecoder`, TXADecoder.ts) -/

/-- The parsed TXA header (`TXAHeader` in TXADecoder.ts). -/
structure TXAHeader where
  version : Nat
  colorMode : Nat
  width : Nat
  height : Nat
  fps : Nat
  totalFrames : Nat
  charCount : Nat
  colorCount : Nat
  bgColor : RGB
  changeSpeed : ℚ
  canvasRatio : Nat
  lumBits : Nat
deriving DecidableEq, Repr

/-- One parsed frame record (`TXAFrame` in TXADecoder.ts). -/
structure TXAFrame where
  type : Nat
  data : List Nat
deriving DecidableEq, Repr

/-- The mutable state of a `TXADecoder`. -/
structure DecoderState where
  header : Option TXAHeader
  characters : List Nat
  colorPalette : List RGB
  frames : List TXAFrame
  currentFrameIndex : Int
  currentGrid : Option Grid
deriving DecidableEq, Repr

/-- A freshly constructed decoder. -/
def initialDecoder : DecoderState :=
  { header := none, characters := [], colorPalette := [], frames := [],
    currentFrameIndex := 0, currentGrid := none }

/-- `DataView.getUint16(…, true)`: 16-bit little-endian read. -/
def getUint16 (b : List Nat) (off : Nat) : Nat :=
  b.getD off 0 + 256 * b.getD (off + 1) 0

/-- `DataView.getUint32(…, true)`: 32-bit little-endian read. -/
def getUint32 (b : List Nat) (off : Nat) : Nat :=
  b.getD off 0 + 256 * b.getD (off + 1) 0 + 65536 * b.getD (off + 2) 0 +
    16777216 * b.getD (off + 3) 0

/-- The frame-record walk of `parse`: each record is 1 type byte, a
4-byte little-endian payload length, and that many payload bytes
(`Uint8Array.slice` clamps at the end of the buffer, as `drop`/`take`
do). -/
def readFrames (bytes : List Nat) : Nat → Nat → List TXAFrame
  | _, 0 => []
  | offset, n + 1 =>
    ⟨bytes.getD offset 0, (bytes.drop (offset + 5)).take (getUint32 bytes (offset + 1))⟩ ::
      readFrames bytes (offset + 5 + getUint32 bytes (offset + 1)) n

/-- The all-zero header used to model the non-null assertion
`this.header!`; every reachable call site has a parsed header. -/
def zeroHeader : TXAHeader :=
  ⟨0, 0, 0, 0, 0, 0, 0, 0, ⟨0, 0, 0⟩, 0, 0, 0⟩

/-- The grid built by `TXADecoder.initGrid`: `width` columns of
`height` all-zero cells. -/
def initGridOf (h : TXAHeader) : Grid :=
  (List.range h.width).map fun _ =>
    (List.range h.height).map fun _ => if h.colorMode = 0 then [0] else [0, 0, 0]

/-- `TXADecoder.initGrid`: reset the grid to all-zero cells and the
cursor to −1 ("before frame 0"). -/
def initGrid (s : DecoderState) : DecoderState :=
  { s with currentGrid := some (initGridOf (s.header.getD zeroHeader)),
           currentFrameIndex := -1 }

/-- `TXADecoder.parse` (TXADecoder.ts).  The magic comparison of the
source builds a 4-character string and compares it with `"TXA\0"`;
`String.fromCharCode` is injective on byte values, so this is the
comparison of the four byte reads with `84, 88, 65, 0` (a missing byte
reads as the code-unit 0, like `fromCharCode(undefined)`).  A thrown
format error is the `none` result, with the pre-call state returned
unchanged — faithfully to the source, where both checks precede every
assignment to `this`. -/
def parse (s : DecoderState) (buf : List Nat) : DecoderState × Option TXAHeader :=
  if ¬ (buf.getD 0 0 = 0x54 ∧ buf.getD 1 0 = 0x58 ∧ buf.getD 2 0 = 0x41 ∧
      buf.getD 3 0 = 0) then
    (s, none)
  else if ¬ (buf.getD 4 0 = 2) then
    (s, none)
  else
    let header : TXAHeader :=
      { version := buf.getD 4 0,
        colorMode := buf.getD 5 0,
        width := getUint16 buf 6,
        height := getUint16 buf 8,
        fps := buf.getD 10 0,
        totalFrames := getUint32 buf 11,
        charCount := buf.getD 15 0,
        colorCount := getUint16 buf 16,
        bgColor := ⟨buf.getD 18 0, buf.getD 19 0, buf.getD 20 0⟩,
        changeSpeed := (buf.getD 21 0 : ℚ) / 10,
        canvasRatio := buf.getD 22 0,
        lumBits := buf.getD 23 0 }
    let s' := initGrid
      { s with
        header := some header,
        characters := (List.range header.charCount).map fun i => buf.getD (32 + i) 0,
        colorPalette := (List.range header.colorCount).map fun i =>
          ⟨buf.getD (32 + header.charCount + 3 * i) 0,
           buf.getD (32 + header.charCount + 3 * i + 1) 0,
           buf.getD (32 + header.charCount + 3 * i + 2) 0⟩,
        frames := readFrames buf (32 + header.charCount + 3 * header.colorCount)
          header.totalFrames }
    (s', some header)

/-- Map over a list with the element's index, starting at `i₀`. -/
def mapIdxFrom {α β : Type} (f : Nat → α → β) : Nat → List α → List β
  | _, [] => []
  | i, a :: as => f i a :: mapIdxFrom f (i + 1) as

/-- One keyframe cell: the `cellSize` decompressed bytes starting at
position `i` (an exact-size payload never reads out of range; a short
one reads `undefined`, stored back as 0 by the `Uint8Array`-backed
grid write, which `getD _ 0` reflects). -/
def kfCell (d : List Nat) (cellSize i : Nat) : Cell :=
  if cellSize = 1 then [d.getD i 0]
  else [d.getD i 0, d.getD (i + 1) 0, d.getD (i + 2) 0]

/-- The keyframe loops of `applyFrame`: every cell `(x, y)` with
`x < width`, `y < height` is overwritten by the decompressed bytes at
the running offset, which at `(x, y)` equals `(y*width + x) * cellSize`
(outer loop over `y`, inner over `x`). -/
def applyKeyframeGrid (width height cellSize : Nat) (d : List Nat) (g : Grid) : Grid :=
  mapIdxFrom
    (fun x col => mapIdxFrom
      (fun y c =>
        if x < width ∧ y < height then kfCell d cellSize ((y * width + x) * cellSize)
        else c)
      0 col)
    0 g

/-- The delta loop of `applyFrame`: `n` change tuples, the `c`-th at
offset `i + c * (2 + cellSize)`; tuples whose `(x, y)` is out of range
(or read past the end, like the source's `undefined`) are skipped. -/
def applyChanges (width height cellSize : Nat) (dd : List Nat) :
    Nat → Nat → Grid → Grid
  | _, 0, g => g
  | i, n + 1, g =>
    applyChanges width height cellSize dd (i + 2 + cellSize) n
      (match dd.get? i, dd.get? (i + 1) with
       | some x, some y =>
         if x < width ∧ y < height then
           setCell g x y (if cellSize = 1 then [dd.getD (i + 2) 0]
             else [dd.getD (i + 2) 0, dd.getD (i + 3) 0, dd.getD (i + 4) 0])
         else g
       | _, _ => g)

/-- `TXADecoder.applyFrame` (TXADecoder.ts). -/
def applyFrame (s : DecoderState) (index : Nat) : DecoderState :=
  let frame := s.frames.getD index ⟨0, []⟩
  let h := s.header.getD zeroHeader
  let cellSize := if h.colorMode = 0 then 1 else 3
  if frame.type = 0 then
    { s with currentGrid := some (applyKeyframeGrid h.width h.height cellSize
        (decompress frame.data (h.width * h.height * cellSize))
        (s.currentGrid.getD [])) }
  else if frame.data.getD 0 0 * 256 + frame.data.getD 1 0 = 0 then s
  else
    { s with currentGrid := some (applyChanges h.width h.height cellSize
        (decompress (frame.data.drop 2)
          ((frame.data.getD 0 0 * 256 + frame.data.getD 1 0) * (2 + cellSize)))
        0 (frame.data.getD 0 0 * 256 + frame.data.getD 1 0)
        (s.currentGrid.getD [])) }

/-- One iteration of the `getFrame` replay loop: increment the cursor,
then apply the frame it now points at. -/
def stepFrame (s : DecoderState) : DecoderState :=
  applyFrame { s with currentFrameIndex := s.currentFrameIndex + 1 }
    (s.currentFrameIndex + 1).toNat

/-- The `while (currentFrameIndex < index)` loop, by its iteration
count (`applyFrame` never touches the cursor, so the loop runs exactly
`index − cursor` times). -/
def replay : Nat → DecoderState → DecoderState
  | 0, s => s
  | n + 1, s => replay n (stepFrame s)

/-- `TXADecoder.getFrame` (TXADecoder.ts): bounds check, rewind on a
backward request, then forward replay; returns the new state and the
returned grid (`none` is the source's `null`). -/
def getFrame (s : DecoderState) (index : Int) : DecoderState × Option Grid :=
  if index < 0 ∨ (s.frames.length : Int) ≤ index then (s, none)
  else
    let s1 := if index < s.currentFrameIndex then initGrid s else s
    let s2 := replay (index - s1.currentFrameIndex).toNat s1
    (s2, s2.currentGrid)

/-- JavaScript array indexing with a possibly negative index:
`l[i]` is `undefined` (`none`) unless `0 ≤ i < l.length`. -/
def jsIndex {α : Type} (l : List α) (i : Int) : Option α :=
  if 0 ≤ i then l.get? i.toNat else none

/-- `TXADecoder.getColor` (TXADecoder.ts): the guard is only
`luminanceOrIndex < colorPalette.length`, and the lookup is plain array
indexing, so a negative index passes the guard (when the palette is
non-empty) and yields `undefined`. -/
def getColor (s : DecoderState) (luminanceOrIndex : Int) : Option RGB :=
  if luminanceOrIndex < (s.colorPalette.length : Int) then
    jsIndex s.colorPalette luminanceOrIndex
  else some ⟨255, 255, 255⟩

/-! ## Format errors leave the decoder untouched (C4) -/

/-- C4.  `parse` reports a format error — and returns the decoder state
completely unchanged — whenever the 4-byte magic is not `"TXA\0"`
(bytes `84, 88, 65, 0`) or the version byte is not the supported
version 2. -/
theorem C4_parse_format_error_no_partial_state (s : DecoderState) (buf : List Nat)
    (h : ¬ (buf.getD 0 0 = 0x54 ∧ buf.getD 1 0 = 0x58 ∧ buf.getD 2 0 = 0x41 ∧
        buf.getD 3 0 = 0) ∨ buf.getD 4 0 ≠ 2) :
    parse s buf = (s, none) := by
  by_cases hm : buf.getD 0 0 = 0x54 ∧ buf.getD 1 0 = 0x58 ∧ buf.getD 2 0 = 0x41 ∧
      buf.getD 3 0 = 0
  · have hv : buf.getD 4 0 ≠ 2 := h.resolve_left (not_not_intro hm)
    simp only [parse]
    rw [if_neg (not_not_intro hm), if_pos hv]
  · simp only [parse]
    rw [if_pos hm]

/-- C4 witness: a 4-byte buffer of zeros has the wrong magic, and a
fresh decoder survives `parse` unchanged. -/
theorem C4_witness : parse initialDecoder [0, 0, 0, 0] = (initialDecoder, none) :=
  C4_parse_format_error_no_partial_state initialDecoder [0, 0, 0, 0] (by decide)

/-! ## `getColor` fallback (C8) -/

/-- Decoder used by the C8 counterexample: one palette entry. -/
def C8_decoder : DecoderState :=
  { header := none, characters := [], colorPalette := [⟨1, 2, 3⟩], frames := [],
    currentFrameIndex := 0, currentGrid := none }

/-- C8 counterexample: with a non-empty palette, `getColor (-1)` passes
the `< length` guard and returns `undefined` (the `none` result) — not
opaque white as claimed for every out-of-range argument. -/
theorem C8_counterexample : getColor C8_decoder (-1) ≠ some ⟨255, 255, 255⟩ := by
  decide

/-- C8 (amended).  `getColor i` returns the palette entry for
`0 ≤ i < length` and opaque white for `i ≥ length`; but every negative
`i` passes the `< length` guard (the length is never negative) and
yields `undefined` — not white. -/
theorem C8_getColor_fallback (s : DecoderState) (i : Int) :
    (0 ≤ i → i < (s.colorPalette.length : Int) →
      getColor s i = s.colorPalette.get? i.toNat) ∧
    ((s.colorPalette.length : Int) ≤ i → getColor s i = some ⟨255, 255, 255⟩) ∧
    (i < 0 → getColor s i = none) := by
  refine ⟨?_, ?_, ?_⟩ <;> unfold getColor jsIndex
  · intro h0 hlt
    rw [if_pos hlt, if_pos h0]
  · intro hge
    rw [if_neg (by omega)]
  · intro hneg
    rw [if_pos (by omega), if_neg (by omega)]

/-- C8 witness: the in-range and above-range cases at the concrete
palette `[⟨1,2,3⟩]`. -/
theorem C8_witness : getColor C8_decoder 0 = some ⟨1, 2, 3⟩ ∧
    getColor C8_decoder 5 = some ⟨255, 255, 255⟩ :=
  ⟨by rw [(C8_getColor_fallback C8_decoder 0).1 (by decide) (by decide)]; rfl,
   (C8_getColor_fallback C8_decoder 5).2.1 (by decide)⟩

/-! ## Pure replay semantics and access-order independence (C3) -/

/-- The grid transformation performed by `applyFrame` for one frame
record: its effect on the current grid, as a pure function. -/
def frameTransform (h : TXAHeader) (frame : TXAFrame) (g : Grid) : Grid :=
  if frame.type = 0 then
    applyKeyframeGrid h.width h.height (if h.colorMode = 0 then 1 else 3)
      (decompress frame.data
        (h.width * h.height * (if h.colorMode = 0 then 1 else 3))) g
  else if frame.data.getD 0 0 * 256 + frame.data.getD 1 0 = 0 then g
  else
    applyChanges h.width h.height (if h.colorMode = 0 then 1 else 3)
      (decompress (frame.data.drop 2)
        ((frame.data.getD 0 0 * 256 + frame.data.getD 1 0) *
          (2 + if h.colorMode = 0 then 1 else 3)))
      0 (frame.data.getD 0 0 * 256 + frame.data.getD 1 0) g

/-- `applyFrame` only rewrites `currentGrid`, by `frameTransform`. -/
theorem applyFrame_eq (s : DecoderState) (index : Nat) (h : TXAHeader) (g : Grid)
    (hh : s.header = some h) (hg : s.currentGrid = some g) :
    applyFrame s index =
      { s with
          currentGrid := some (frameTransform h (s.frames.getD index ⟨0, []⟩) g) } := by
  unfold applyFrame frameTransform
  rw [hh, hg]
  simp only [Option.getD_some]
  split
  · rfl
  · split
    · cases s
      simp_all
    · rfl

/-- The grid after replaying frame records `0 … n−1`, in order, onto
the freshly initialized grid: the pure meaning of frame prefixes. -/
def pureGrid (h : TXAHeader) (frames : List TXAFrame) : Nat → Grid
  | 0 => initGridOf h
  | n + 1 => frameTransform h (frames.getD n ⟨0, []⟩) (pureGrid h frames n)

/-- The decoder's reachability invariant: a parsed header, a cursor in
`[−1, totalFrames)`, and a current grid that is exactly the pure replay
of the frame prefix up to the cursor. -/
def DecInv (s : DecoderState) : Prop :=
  s.header ≠ none ∧
  -1 ≤ s.currentFrameIndex ∧
  s.currentFrameIndex < (s.frames.length : Int) ∧
  s.currentGrid = some (pureGrid (s.header.getD zeroHeader) s.frames
    (s.currentFrameIndex + 1).toNat)

/-- The replay loop advances the cursor by its iteration count and
keeps the grid at the pure replay of the corresponding prefix. -/
theorem replay_pure (h : TXAHeader) (fr : List TXAFrame) :
    ∀ (n k : Nat) (s : DecoderState),
      s.header = some h → s.frames = fr →
      s.currentFrameIndex = (k : Int) - 1 →
      s.currentGrid = some (pureGrid h fr k) →
      replay n s = { s with
          currentFrameIndex := (k : Int) + n - 1,
          currentGrid := some (pureGrid h fr (k + n)) } := by
  intro n
  induction n with
  | zero =>
    intro k s hh hfr hci hg
    simp only [replay]
    cases s
    simp_all
  | succ n ih =>
    intro k s hh hfr hci hg
    have hstep : stepFrame s = { s with
        currentFrameIndex := (k : Int),
        currentGrid := some (pureGrid h fr (k + 1)) } := by
      unfold stepFrame
      have hci1 : s.currentFrameIndex + 1 = (k : Int) := by omega
      rw [hci1]
      have htn : ((k : Int)).toNat = k := Int.toNat_ofNat k
      rw [htn]
      rw [applyFrame_eq { s with currentFrameIndex := (k : Int) } k h (pureGrid h fr k)
        hh hg]
      show ({ s with
          currentFrameIndex := (k : Int),
          currentGrid := some (frameTransform h (s.frames.getD k ⟨0, []⟩)
            (pureGrid h fr k)) } : DecoderState) = _
      rw [hfr]
      rfl
    rw [replay, hstep,
      ih (k + 1)
        { s with
          currentFrameIndex := (k : Int),
          currentGrid := some (pureGrid h fr (k + 1)) }
        hh hfr
        (by show ((k : Int)) = ((k + 1 : Nat) : Int) - 1; push_cast; ring) rfl]
    have h1 : ((k + 1 : Nat) : Int) + (n : Int) - 1 =
        (k : Int) + ((n + 1 : Nat) : Int) - 1 := by
      push_cast
      ring
    have h2 : (k + 1) + n = k + (n + 1) := by omega
    rw [h1, h2]

theorem neg_one_lt_natCast (n : Nat) : (-1 : Int) < (n : Int) := by omega

/-- Under the invariant, `getFrame` computes to the pure replay of the
requested prefix and the cursor moved there. -/
theorem getFrame_in_range (s : DecoderState) (index : Int) (hinv : DecInv s)
    (h0 : 0 ≤ index) (hlen : index < (s.frames.length : Int)) :
    getFrame s index =
      ({ s with
          currentFrameIndex := index,
          currentGrid := some (pureGrid (s.header.getD zeroHeader) s.frames
            (index + 1).toNat) },
       some (pureGrid (s.header.getD zeroHeader) s.frames (index + 1).toNat)) := by
  obtain ⟨hhne, hge, hlt, hgrid⟩ := hinv
  have hh : s.header = some (s.header.getD zeroHeader) := by
    cases hcase : s.header with
    | none => exact absurd hcase hhne
    | some h' => rfl
  have hb' : ¬ (index < 0 ∨ (s.frames.length : Int) ≤ index) := by omega
  by_cases hrew : index < s.currentFrameIndex
  · simp only [getFrame]
    rw [if_neg hb', if_pos hrew]
    rw [show (initGrid s).currentFrameIndex = -1 from rfl]
    rw [show index - (-1 : Int) = index + 1 from by ring]
    rw [replay_pure (s.header.getD zeroHeader) s.frames (index + 1).toNat 0 (initGrid s)
      hh rfl (by show (-1 : Int) = ((0 : Nat) : Int) - 1; decide) rfl]
    have harith : ((0 : Nat) : Int) + (((index + 1).toNat : Nat) : Int) - 1 = index := by
      omega
    have harith2 : 0 + (index + 1).toNat = (index + 1).toNat := by omega
    rw [harith, harith2]
    rfl
  · simp only [getFrame]
    rw [if_neg hb', if_neg hrew]
    rw [replay_pure (s.header.getD zeroHeader) s.frames
      (index - s.currentFrameIndex).toNat (s.currentFrameIndex + 1).toNat s
      hh rfl (by omega) hgrid]
    have harith : (((s.currentFrameIndex + 1).toNat : Nat) : Int) +
        (((index - s.currentFrameIndex).toNat : Nat) : Int) - 1 = index := by omega
    have harith2 : (s.currentFrameIndex + 1).toNat + (index - s.currentFrameIndex).toNat =
        (index + 1).toNat := by omega
    rw [harith, harith2]

/-- C3.  Access-order independence: on any invariant-satisfying decoder
state (as `parse` establishes and every call preserves), the grid
returned by `getFrame index` is `none` out of range and otherwise the
pure replay `pureGrid` of the parsed frame records up to `index` — a
value depending only on the parsed header, the frame records and
`index`, never on the cursor or grid left by earlier `getFrame` calls;
and the call leaves the frame records and header unchanged and the
invariant intact, so any sequence of requests (increasing, decreasing
or random) yields these same grids. -/
theorem C3_access_order_independence (s : DecoderState) (index : Int)
    (hinv : DecInv s) :
    (getFrame s index).2 =
      (if 0 ≤ index ∧ index < (s.frames.length : Int) then
        some (pureGrid (s.header.getD zeroHeader) s.frames (index + 1).toNat)
      else none) ∧
    (getFrame s index).1.header = s.header ∧
    (getFrame s index).1.frames = s.frames ∧
    DecInv (getFrame s index).1 := by
  by_cases hb : 0 ≤ index ∧ index < (s.frames.length : Int)
  · rw [getFrame_in_range s index hinv hb.1 hb.2, if_pos hb]
    obtain ⟨hhne, hge, hlt, hgrid⟩ := hinv
    refine ⟨rfl, rfl, rfl, hhne, ?_, ?_, rfl⟩
    · show -1 ≤ index
      omega
    · show index < _
      exact hb.2
  · have hout : getFrame s index = (s, none) := by
      simp only [getFrame]
      rw [if_pos (by omega)]
    rw [hout, if_neg hb]
    exact ⟨rfl, rfl, rfl, hinv⟩

instance (s : DecoderState) : Decidable (DecInv s) := by
  unfold DecInv
  infer_instance

/-- Concrete decoder state for the C3 witness: a parsed 1×1 gradient
file with one frame, cursor still before frame 0. -/
def C3_decoder : DecoderState :=
  { header := some ⟨2, 0, 1, 1, 30, 1, 0, 0, ⟨0, 0, 0⟩, 2, 0, 8⟩,
    characters := [], colorPalette := [],
    frames := [⟨1, [0, 0]⟩],
    currentFrameIndex := -1,
    currentGrid := some [[[0]]] }

/-- C3 witness: the order-independence theorem applied to the concrete
decoder at index 0. -/
theorem C3_witness :
    (getFrame C3_decoder 0).2 =
      (if 0 ≤ (0 : Int) ∧ (0 : Int) < (C3_decoder.frames.length : Int) then
        some (pureGrid (C3_decoder.header.getD zeroHeader) C3_decoder.frames
          ((0 : Int) + 1).toNat)
      else none) ∧
    (getFrame C3_decoder 0).1.header = C3_decoder.header ∧
    (getFrame C3_decoder 0).1.frames = C3_decoder.frames ∧
    DecInv (getFrame C3_decoder 0).1 :=
  C3_access_order_independence C3_decoder 0 (by decide)

/-- A successful `parse` establishes the decoder invariant: parse hands
every later `getFrame` a state whose grid is the pure replay of the
empty prefix. -/
theorem parse_establishes_DecInv (s s' : DecoderState) (buf : List Nat) (h : TXAHeader)
    (hp : parse s buf = (s', some h)) : DecInv s' ∧ s'.header = some h := by
  unfold parse at hp
  by_cases hm : buf.getD 0 0 = 0x54 ∧ buf.getD 1 0 = 0x58 ∧ buf.getD 2 0 = 0x41 ∧
      buf.getD 3 0 = 0
  · by_cases hv : buf.getD 4 0 = 2
    · rw [if_neg (not_not_intro hm), if_neg (not_not_intro hv)] at hp
      rw [Prod.mk.injEq] at hp
      obtain ⟨hs', hhd⟩ := hp
      subst hs'
      refine ⟨⟨by simp [initGrid], by simp [initGrid], ?_, ?_⟩, by simpa [initGrid] using hhd⟩
      · simp only [initGrid]
        exact neg_one_lt_natCast _
      · rfl
    · rw [if_neg (not_not_intro hm), if_pos hv] at hp
      exact absurd (congrArg Prod.snd hp) (by simp)
  · rw [if_pos hm] at hp
    exact absurd (congrArg Prod.snd hp) (by simp)


/-! ## Toolkit for the round-trip proof (C1): lists and grids -/

theorem getD_drop (l : List Nat) (off k d : Nat) :
    (l.drop off).getD k d = l.getD (off + k) d := by
  simp [List.getD_eq_get?, List.get?_drop]

theorem map_mod_id (l : List Nat) (h : ∀ b ∈ l, b < 256) : l.map (· % 256) = l := by
  induction l with
  | nil => rfl
  | cons a rest ih =>
    simp only [List.map_cons]
    rw [Nat.mod_eq_of_lt (h a (List.mem_cons_self a rest)),
      ih (fun b hb => h b (List.mem_cons_of_mem a hb))]

theorem mapIdxFrom_length {α β : Type} (f : Nat → α → β) :
    ∀ (i : Nat) (l : List α), (mapIdxFrom f i l).length = l.length := by
  intro i l
  induction l generalizing i with
  | nil => rfl
  | cons a as ih => simp [mapIdxFrom, ih]

theorem mapIdxFrom_get? {α β : Type} (f : Nat → α → β) :
    ∀ (l : List α) (i j : Nat),
      (mapIdxFrom f i l).get? j = (l.get? j).map (f (i + j)) := by
  intro l
  induction l with
  | nil => intro i j; rfl
  | cons a as ih =>
    intro i j
    cases j with
    | zero => rfl
    | succ j' =>
      simp only [mapIdxFrom, List.get?_cons_succ]
      rw [ih (i + 1) j', show i + 1 + j' = i + (j' + 1) from by omega]

/-- The outer dimensions of a grid: `w` columns of `h` cells each. -/
def Dims (g : Grid) (w h : Nat) : Prop :=
  g.length = w ∧ ∀ col ∈ g, col.length = h

/-- Grid shape: dimensions plus a fixed cell arity. -/
def GridShape (g : Grid) (w h cs : Nat) : Prop :=
  g.length = w ∧ ∀ col ∈ g, col.length = h ∧ ∀ c ∈ col, c.length = cs

theorem GridShape.dims {g : Grid} {w h cs : Nat} (hs : GridShape g w h cs) :
    Dims g w h :=
  ⟨hs.1, fun col hcol => (hs.2 col hcol).1⟩

theorem cellAt_eq_of_dims (g : Grid) (w h x y : Nat) (hd : Dims g w h)
    (hx : x < w) (hy : y < h) :
    ∃ col c, g.get? x = some col ∧ col.get? y = some c ∧ cellAt g x y = some c := by
  obtain ⟨hlen, hcols⟩ := hd
  have hxl : x < g.length := by omega
  have hcol : g.get? x = some (g.get ⟨x, hxl⟩) := List.get?_eq_get hxl
  have hmem : g.get ⟨x, hxl⟩ ∈ g := List.get_mem g x hxl
  have hyl : y < (g.get ⟨x, hxl⟩).length := by rw [hcols _ hmem]; exact hy
  have hc : (g.get ⟨x, hxl⟩).get? y = some ((g.get ⟨x, hxl⟩).get ⟨y, hyl⟩) :=
    List.get?_eq_get hyl
  refine ⟨_, _, hcol, hc, ?_⟩
  unfold cellAt
  rw [hcol, Option.some_bind, hc]

theorem setCell_get?_outer (g : Grid) (x y : Nat) (c : Cell) (x' : Nat) :
    (setCell g x y c).get? x' =
      if x' = x then (g.get? x).map (fun _ => (g.getD x []).set y c)
      else g.get? x' := by
  unfold setCell
  by_cases hxx : x' = x
  · subst hxx
    rw [if_pos rfl, List.get?_set_eq]
    rfl
  · rw [if_neg hxx, List.get?_set_ne _ _ (fun hc => hxx hc.symm)]

theorem setCell_cellAt_self (g : Grid) (w h x y : Nat) (hd : Dims g w h)
    (hx : x < w) (hy : y < h) (c : Cell) :
    cellAt (setCell g x y c) x y = some c := by
  obtain ⟨col, c0, hcol, hc0, _⟩ := cellAt_eq_of_dims g w h x y hd hx hy
  have hcold : g.getD x [] = col := by rw [List.getD_eq_get?, hcol]; rfl
  unfold cellAt
  rw [setCell_get?_outer, if_pos rfl, hcol, hcold]
  simp only [Option.map_some', Option.some_bind]
  rw [List.get?_set_eq, hc0]
  rfl

theorem setCell_cellAt_ne (g : Grid) (x y : Nat) (c : Cell) (x' y' : Nat)
    (hne : ¬ (x' = x ∧ y' = y)) :
    cellAt (setCell g x y c) x' y' = cellAt g x' y' := by
  unfold cellAt
  rw [setCell_get?_outer]
  by_cases hxx : x' = x
  · subst hxx
    rw [if_pos rfl]
    have hyy : y ≠ y' := fun hc => hne ⟨rfl, hc.symm⟩
    cases hcol : g.get? x' with
    | none => rfl
    | some col =>
      have hcold : g.getD x' [] = col := by rw [List.getD_eq_get?, hcol]; rfl
      simp only [Option.map_some', Option.some_bind]
      rw [hcold, List.get?_set_ne _ _ hyy]
  · rw [if_neg hxx]

theorem setCell_dims (g : Grid) (w h x y : Nat) (c : Cell) (hd : Dims g w h) :
    Dims (setCell g x y c) w h := by
  obtain ⟨hlen, hcols⟩ := hd
  by_cases hx : x < w
  · refine ⟨by simpa [setCell] using hlen, ?_⟩
    intro col' hcol'
    rcases List.mem_or_eq_of_mem_set hcol' with hmem | heq
    · exact hcols col' hmem
    · have hxl : x < g.length := by omega
      have hcold : g.getD x [] = g.get ⟨x, hxl⟩ := by
        rw [List.getD_eq_get?, List.get?_eq_get hxl]
        rfl
      rw [heq, hcold, List.length_set]
      exact hcols _ (List.get_mem g x hxl)
  · have hnoop : setCell g x y c = g := by
      unfold setCell
      exact List.set_eq_of_length_le (by omega)
    rw [hnoop]
    exact ⟨hlen, hcols⟩

theorem grid_ext (g g' : Grid) (w h : Nat) (hd : Dims g w h) (hd' : Dims g' w h)
    (hcell : ∀ x y, x < w → y < h → cellAt g x y = cellAt g' x y) : g = g' := by
  obtain ⟨hlen, hcols⟩ := hd
  obtain ⟨hlen', hcols'⟩ := hd'
  apply List.ext_get?
  intro x
  by_cases hx : x < w
  · have hxl : x < g.length := by omega
    have hxl' : x < g'.length := by omega
    rw [List.get?_eq_get hxl, List.get?_eq_get hxl']
    have hcleq : g.get ⟨x, hxl⟩ = g'.get ⟨x, hxl'⟩ := by
      apply List.ext_get?
      intro y
      by_cases hy : y < h
      · have h1 := hcell x y hx hy
        unfold cellAt at h1
        rw [List.get?_eq_get hxl, List.get?_eq_get hxl'] at h1
        simpa using h1
      · rw [List.get?_eq_none.mpr, List.get?_eq_none.mpr]
        · rw [hcols' _ (List.get_mem g' x hxl')]
          omega
        · rw [hcols _ (List.get_mem g x hxl)]
          omega
    rw [hcleq]
  · rw [List.get?_eq_none.mpr (by omega), List.get?_eq_none.mpr (by omega)]

/-! ## Byte bounds and length bounds of the compressor output -/

theorem getD_lt_256 (c : List Nat) (i : Nat) (hc : ∀ b ∈ c, b < 256) :
    c.getD i 0 < 256 := by
  rw [List.getD_eq_get?]
  cases hg : c.get? i with
  | none => simp
  | some v =>
    simp only [Option.getD_some]
    exact hc v (List.get?_mem hg)

theorem deltaEncodeGo_lt_256 : ∀ (l : List Nat) (prev : Nat),
    ∀ b ∈ deltaEncodeGo prev l, b < 256 := by
  intro l
  induction l with
  | nil => intro prev b hb; simp [deltaEncodeGo] at hb
  | cons a rest ih =>
    intro prev b hb
    rcases List.mem_cons.mp hb with h | h
    · rw [h]
      exact Nat.mod_lt _ (by norm_num)
    · exact ih a b h

theorem deltaEncode_lt_256 (l : List Nat) : ∀ b ∈ deltaEncode l, b < 256 := by
  cases l with
  | nil => intro b hb; simp [deltaEncode] at hb
  | cons a rest =>
    intro b hb
    rcases List.mem_cons.mp hb with h | h
    · rw [h]
      exact Nat.mod_lt _ (by norm_num)
    · exact deltaEncodeGo_lt_256 rest a b h

theorem rleEncode_lt_256 : ∀ l : List Nat, (∀ b ∈ l, b < 256) →
    ∀ b ∈ rleEncode l, b < 256 := by
  intro l
  induction l using rleEncode.induct with
  | case1 =>
    intro _ b hb
    simp [rleEncode] at hb
  | case2 a rest hrun ih =>
    intro hl b hb
    rw [rleEncode, if_pos hrun] at hb
    rcases List.mem_cons.mp hb with h | hb2
    · omega
    rcases List.mem_cons.mp hb2 with h | hb3
    · have := Nat.min_le_right (leadRun (a :: rest)) 255
      omega
    rcases List.mem_cons.mp hb3 with h | hb4
    · rw [h]
      exact hl a (List.mem_cons_self a rest)
    · exact ih (fun v hv => hl v (List.mem_of_mem_drop hv)) b hb4
  | case3 a rest hrun ih =>
    intro hl b hb
    rw [rleEncode, if_neg hrun] at hb
    rcases List.mem_cons.mp hb with h | hb2
    · have := literalLen_le_budget (a :: rest) 254
      omega
    rcases List.mem_append.mp hb2 with h | h
    · exact hl b (List.mem_of_mem_take h)
    · exact ih (fun v hv => hl v (List.mem_of_mem_drop hv)) b h

theorem compress_lt_256 (l : List Nat) : ∀ b ∈ compress l, b < 256 :=
  rleEncode_lt_256 (deltaEncode l) (deltaEncode_lt_256 l)

theorem rleEncode_length_le : ∀ l : List Nat, (rleEncode l).length ≤ 2 * l.length := by
  intro l
  induction l using rleEncode.induct with
  | case1 => simp [rleEncode]
  | case2 a rest hrun ih =>
    rw [rleEncode, if_pos hrun]
    have hlen : min (leadRun (a :: rest)) 255 ≤ rest.length + 1 := by
      have h1 := leadRun_le_length (a :: rest)
      simp only [List.length_cons] at h1
      omega
    simp only [List.length_cons, List.length_drop] at ih ⊢
    omega
  | case3 a rest hrun ih =>
    rw [rleEncode, if_neg hrun]
    have hlen : max (literalLen (a :: rest) 254) 1 ≤ rest.length + 1 := by
      have h1 := literalLen_le_length (a :: rest) 254
      simp only [List.length_cons] at h1
      omega
    simp only [List.length_cons, List.length_append, List.length_take,
      List.length_drop] at ih ⊢
    omega

theorem compress_length_le (l : List Nat) : (compress l).length ≤ 2 * l.length := by
  have h := rleEncode_length_le (deltaEncode l)
  rwa [deltaEncode_length] at h

/-! ## Quantization bound and processed-grid shape -/

theorem quantizeLuminance_lt_256 (bits v : Nat) (hv : v < 256) :
    quantizeLuminance bits v < 256 := by
  unfold quantizeLuminance
  split
  · exact hv
  · rename_i hb
    have hb7 : bits ≤ 7 := by omega
    interval_cases bits <;> norm_num <;> omega

theorem processGrid_shape (cm lb : Nat) (g : Grid) (w h : Nat) (hd : Dims g w h) :
    GridShape (processGrid cm lb g) w h (if cm = 0 then 1 else 3) := by
  obtain ⟨hlen, hcols⟩ := hd
  refine ⟨by simpa [processGrid] using hlen, ?_⟩
  intro col' hcol'
  obtain ⟨col, hmem, hcoleq⟩ := List.mem_map.mp hcol'
  subst hcoleq
  refine ⟨by simpa using hcols col hmem, ?_⟩
  intro c' hc'
  obtain ⟨c, _, hceq⟩ := List.mem_map.mp hc'
  subst hceq
  by_cases hcm : cm = 0 <;> simp [hcm]

theorem processGrid_bytes (cm lb : Nat) (g : Grid)
    (hb : ∀ col ∈ g, ∀ c ∈ col, ∀ b ∈ c, b < 256) :
    ∀ col ∈ processGrid cm lb g, ∀ c ∈ col, ∀ b ∈ c, b < 256 := by
  intro col' hcol' c' hc' b hbmem
  obtain ⟨col, hmem, hcoleq⟩ := List.mem_map.mp hcol'
  subst hcoleq
  obtain ⟨c, hcmem, hceq⟩ := List.mem_map.mp hc'
  subst hceq
  have hcy := hb col hmem c hcmem
  by_cases hcm : cm = 0
  · rw [if_pos hcm] at hbmem
    rw [List.mem_singleton] at hbmem
    rw [hbmem]
    exact quantizeLuminance_lt_256 lb _ (getD_lt_256 c 0 hcy)
  · rw [if_neg hcm] at hbmem
    simp only [List.mem_cons, List.mem_singleton] at hbmem
    rcases hbmem with h | h | h | h
    · rw [h]; exact getD_lt_256 c 0 hcy
    · rw [h]; exact getD_lt_256 c 1 hcy
    · rw [h]; exact getD_lt_256 c 2 hcy
    · simp at h

/-! ## Flattening a grid row-major and reading it back (keyframes) -/

theorem flatMap_eq_flatten_map {α β : Type} (f : α → List β) (l : List α) :
    l.flatMap f = (l.map f).flatten := by
  induction l <;> simp [*]

theorem flatten_flatMap {α β : Type} (l : List α) (g : α → List (List β)) :
    (l.flatMap g).flatten = l.flatMap fun a => (g a).flatten := by
  induction l <;> simp [*]

/-- The row-major cell sequence that `flattenGrid` concatenates. -/
def cellSeq (w h : Nat) (dflt : Cell) (g : Grid) : List Cell :=
  (List.range h).flatMap fun y => (List.range w).map fun x => (cellAt g x y).getD dflt

theorem flattenGrid_eq (w h cm : Nat) (g : Grid) :
    flattenGrid w h cm g =
      (cellSeq w h (if cm = 0 then [0] else [0, 0, 0]) g).flatten := by
  unfold flattenGrid cellSeq
  rw [flatten_flatMap]
  simp only [flatMap_eq_flatten_map]

theorem cellSeq_succ (w h : Nat) (dflt : Cell) (g : Grid) :
    cellSeq w (h + 1) dflt g =
      cellSeq w h dflt g ++ ((List.range w).map fun x => (cellAt g x h).getD dflt) := by
  unfold cellSeq
  rw [List.range_succ, List.flatMap_append]
  simp

theorem cellSeq_length (w h : Nat) (dflt : Cell) (g : Grid) :
    (cellSeq w h dflt g).length = h * w := by
  induction h with
  | zero => simp [cellSeq]
  | succ h ih =>
    rw [cellSeq_succ, List.length_append, ih, List.length_map, List.length_range]
    ring

theorem cellSeq_mem_length (w h : Nat) (dflt : Cell) (g : Grid) (cs : Nat)
    (hdflt : dflt.length = cs)
    (hcells : ∀ col ∈ g, ∀ c ∈ col, c.length = cs) :
    ∀ b ∈ cellSeq w h dflt g, b.length = cs := by
  intro b hb
  unfold cellSeq at hb
  obtain ⟨y, _, hb2⟩ := List.mem_flatMap.mp hb
  obtain ⟨x, _, hbeq⟩ := List.mem_map.mp hb2
  subst hbeq
  cases hcell : cellAt g x y with
  | none => simpa [hcell] using hdflt
  | some c =>
    have hcmem : ∃ col ∈ g, c ∈ col := by
      unfold cellAt at hcell
      cases hcol : g.get? x with
      | none => rw [hcol] at hcell; simp at hcell
      | some col =>
        rw [hcol] at hcell
        simp only [Option.some_bind] at hcell
        exact ⟨col, List.get?_mem hcol, List.get?_mem hcell⟩
    obtain ⟨col, hcolmem, hcmem2⟩ := hcmem
    simpa [hcell] using hcells col hcolmem c hcmem2

theorem rowmajor_lt (x y w h : Nat) (hx : x < w) (hy : y < h) : y * w + x < h * w :=
  calc y * w + x < y * w + w := by omega
  _ = (y + 1) * w := by ring
  _ ≤ h * w := Nat.mul_le_mul_right w hy

theorem cellSeq_getD (w : Nat) (dflt : Cell) (g : Grid) :
    ∀ (h x y : Nat), x < w → y < h →
    (cellSeq w h dflt g).getD (y * w + x) [] = (cellAt g x y).getD dflt := by
  intro h
  induction h with
  | zero => intro x y _ hy; omega
  | succ h ih =>
    intro x y hx hy
    rw [cellSeq_succ]
    by_cases hyh : y < h
    · rw [List.getD_append _ _ _ _ (by rw [cellSeq_length]; exact rowmajor_lt x y w h hx hyh)]
      exact ih x y hx hyh
    · have hyeq : y = h := by omega
      subst hyeq
      rw [List.getD_append_right _ _ _ _ (by rw [cellSeq_length]; omega)]
      rw [cellSeq_length, Nat.add_sub_cancel_left]
      rw [List.getD_eq_get?, List.get?_map, List.get?_range hx]
      rfl

theorem flatten_blocks_getD (L : Nat) : ∀ (bs : List (List Nat)) (i j d : Nat),
    (∀ b ∈ bs, b.length = L) → i < bs.length → j < L →
    bs.flatten.getD (i * L + j) d = (bs.getD i []).getD j d := by
  intro bs
  induction bs with
  | nil =>
    intro i j d _ hi _
    simp at hi
  | cons b rest ih =>
    intro i j d hL hi hj
    have hbl : b.length = L := hL b (List.mem_cons_self b rest)
    cases i with
    | zero =>
      rw [List.flatten_cons, Nat.zero_mul, Nat.zero_add,
        List.getD_append _ _ _ _ (by rw [hbl]; exact hj)]
      rfl
    | succ i' =>
      rw [List.flatten_cons,
        show (i' + 1) * L + j = b.length + (i' * L + j) from by rw [hbl]; ring,
        List.getD_append_right _ _ _ _ (Nat.le_add_right _ _),
        Nat.add_sub_cancel_left,
        ih i' j d (fun bb hb => hL bb (List.mem_cons_of_mem _ hb))
          (by simpa using hi) hj]
      rfl

theorem cell_eq_one (c : Cell) (hc : c.length = 1) : [c.getD 0 0] = c := by
  match c with
  | [a] => rfl
  | [] => simp at hc
  | _ :: _ :: _ => simp at hc

theorem cell_eq_three (c : Cell) (hc : c.length = 3) :
    [c.getD 0 0, c.getD 1 0, c.getD 2 0] = c := by
  match c with
  | [a, b, d] => rfl
  | [] => simp at hc
  | [_] => simp at hc
  | [_, _] => simp at hc
  | _ :: _ :: _ :: _ :: _ => simp at hc

theorem applyKeyframeGrid_dims (w h cs : Nat) (d : List Nat) (g : Grid)
    (hg : Dims g w h) : Dims (applyKeyframeGrid w h cs d g) w h := by
  obtain ⟨hlen, hcols⟩ := hg
  constructor
  · rw [applyKeyframeGrid, mapIdxFrom_length]
    exact hlen
  · intro col' hcol'
    rw [applyKeyframeGrid] at hcol'
    obtain ⟨n, hn⟩ := List.mem_iff_get?.mp hcol'
    rw [mapIdxFrom_get?] at hn
    cases hcol : g.get? n with
    | none => rw [hcol] at hn; simp at hn
    | some col =>
      rw [hcol] at hn
      simp only [Option.map_some'] at hn
      obtain rfl : _ = col' := Option.some.inj hn
      rw [mapIdxFrom_length]
      exact hcols col (List.get?_mem hcol)

theorem applyKeyframeGrid_cellAt (w h cs : Nat) (d : List Nat) (g : Grid)
    (hg : Dims g w h) (x y : Nat) (hx : x < w) (hy : y < h) :
    cellAt (applyKeyframeGrid w h cs d g) x y =
      some (kfCell d cs ((y * w + x) * cs)) := by
  obtain ⟨col, c, hcol, hc, _⟩ := cellAt_eq_of_dims g w h x y hg hx hy
  unfold cellAt applyKeyframeGrid
  rw [mapIdxFrom_get?, hcol]
  simp only [Option.map_some', Option.some_bind]
  rw [mapIdxFrom_get?, hc]
  simp only [Option.map_some', Nat.zero_add]
  rw [if_pos ⟨hx, hy⟩]

/-- Applying a keyframe whose payload is the flattening of a
`w × h`-shaped processed grid overwrites any `w × h` grid with exactly
that processed grid. -/
theorem applyKeyframeGrid_flatten (w h cm cs : Nat)
    (hcs : cs = if cm = 0 then 1 else 3) (processed g : Grid)
    (hp : GridShape processed w h cs) (hg : Dims g w h) :
    applyKeyframeGrid w h cs (flattenGrid w h cm processed) g = processed := by
  have hcells : ∀ col ∈ processed, ∀ c ∈ col, c.length = cs :=
    fun col hcol => (hp.2 col hcol).2
  have hdflt : (if cm = 0 then [0] else ([0, 0, 0] : Cell)).length = cs := by
    rw [hcs]
    split <;> rfl
  have hblocks := cellSeq_mem_length w h (if cm = 0 then [0] else [0, 0, 0]) processed
    cs hdflt hcells
  apply grid_ext _ _ w h (applyKeyframeGrid_dims _ _ _ _ _ hg) hp.dims
  intro x y hx hy
  rw [applyKeyframeGrid_cellAt w h _ _ g hg x y hx hy]
  obtain ⟨colp, cp, hcolp, hcp, hcellp⟩ := cellAt_eq_of_dims processed w h x y hp.dims hx hy
  rw [hcellp]
  have hcp_len : cp.length = cs :=
    hcells colp (List.get?_mem hcolp) cp (List.get?_mem hcp)
  have hflat : ∀ j, j < cs →
      (flattenGrid w h cm processed).getD ((y * w + x) * cs + j) 0 = cp.getD j 0 := by
    intro j hj
    rw [flattenGrid_eq,
      flatten_blocks_getD cs _ _ _ _ hblocks
        (by rw [cellSeq_length]; exact rowmajor_lt x y w h hx hy) hj,
      cellSeq_getD w (if cm = 0 then [0] else [0, 0, 0]) processed h x y hx hy, hcellp]
    rfl
  congr 1
  unfold kfCell
  by_cases hcm : cm = 0
  · rw [if_pos hcm] at hcs
    subst hcs
    rw [if_pos rfl]
    have h0 := hflat 0 (by norm_num)
    rw [Nat.add_zero] at h0
    rw [h0]
    exact cell_eq_one cp hcp_len
  · rw [if_neg hcm] at hcs
    subst hcs
    rw [if_neg (by norm_num)]
    have h0 := hflat 0 (by norm_num)
    rw [Nat.add_zero] at h0
    rw [h0, hflat 1 (by norm_num), hflat 2 (by norm_num)]
    exact cell_eq_three cp hcp_len

/-! ## Change lists: triples, their application, and `calculateDelta` -/

/-- The changed-cell test of `calculateDelta` at one position. -/
def cellChanged (prevFrame currFrame : Grid) (cellSize x y : Nat) : Prop :=
  if cellSize = 1 then
    ((cellAt prevFrame x y).getD []).get? 0 ≠ ((cellAt currFrame x y).getD []).get? 0
  else
    ((cellAt prevFrame x y).getD []).get? 0 ≠ ((cellAt currFrame x y).getD []).get? 0 ∨
    ((cellAt prevFrame x y).getD []).get? 1 ≠ ((cellAt currFrame x y).getD []).get? 1 ∨
    ((cellAt prevFrame x y).getD []).get? 2 ≠ ((cellAt currFrame x y).getD []).get? 2

instance (prevFrame currFrame : Grid) (cellSize x y : Nat) :
    Decidable (cellChanged prevFrame currFrame cellSize x y) := by
  unfold cellChanged
  infer_instance

/-- The changed cells of `calculateDelta`, as `(x, y, cell)` triples in
scan order. -/
def deltaTriples (prevFrame currFrame : Grid) (cellSize : Nat) :
    List (Nat × Nat × Cell) :=
  (List.range prevFrame.length).flatMap fun x =>
    (List.range (prevFrame.getD 0 []).length).flatMap fun y =>
      if cellChanged prevFrame currFrame cellSize x y then
        [(x, y, (cellAt currFrame x y).getD [])]
      else []

theorem ite_singleton_flatMap {α β : Type} (P : Prop) [Decidable P] (t : α)
    (g : α → List β) :
    (if P then [t] else []).flatMap g = if P then g t else [] := by
  split <;> simp

theorem calculateDelta_eq_flatMap (prev curr : Grid) (cs : Nat) :
    calculateDelta prev curr cs =
      (deltaTriples prev curr cs).flatMap fun t => t.1 :: t.2.1 :: t.2.2 := by
  unfold calculateDelta deltaTriples cellChanged
  simp only [List.flatMap_assoc, ite_singleton_flatMap]

theorem mem_deltaTriples (prev curr : Grid) (cs : Nat) (t : Nat × Nat × Cell) :
    t ∈ deltaTriples prev curr cs ↔
      t.1 < prev.length ∧ t.2.1 < (prev.getD 0 []).length ∧
      cellChanged prev curr cs t.1 t.2.1 ∧ t.2.2 = (cellAt curr t.1 t.2.1).getD [] := by
  unfold deltaTriples
  constructor
  · intro hmem
    obtain ⟨x, hx, hmem2⟩ := List.mem_flatMap.mp hmem
    obtain ⟨y, hy, hmem3⟩ := List.mem_flatMap.mp hmem2
    rw [List.mem_range] at hx hy
    split at hmem3
    · rw [List.mem_singleton] at hmem3
      subst hmem3
      exact ⟨hx, hy, by assumption, rfl⟩
    · simp at hmem3
  · intro ⟨hx, hy, hchg, hcell⟩
    refine List.mem_flatMap.mpr ⟨t.1, List.mem_range.mpr hx, ?_⟩
    refine List.mem_flatMap.mpr ⟨t.2.1, List.mem_range.mpr hy, ?_⟩
    rw [if_pos hchg, List.mem_singleton]
    exact Prod.ext rfl (Prod.ext rfl hcell)

/-- The foldl applying `(x, y, cell)` triples in order, with the bound
check of the decoder's delta loop. -/
def applyTriples (w h : Nat) (ts : List (Nat × Nat × Cell)) (g : Grid) : Grid :=
  ts.foldl (fun g t => if t.1 < w ∧ t.2.1 < h then setCell g t.1 t.2.1 t.2.2 else g) g

theorem applyTriples_nil (w h : Nat) (g : Grid) : applyTriples w h [] g = g := rfl

theorem applyTriples_cons (w h : Nat) (t : Nat × Nat × Cell)
    (ts : List (Nat × Nat × Cell)) (g : Grid) :
    applyTriples w h (t :: ts) g =
      applyTriples w h ts (if t.1 < w ∧ t.2.1 < h then setCell g t.1 t.2.1 t.2.2 else g) :=
  rfl

theorem applyTriples_append (w h : Nat) (l1 l2 : List (Nat × Nat × Cell)) (g : Grid) :
    applyTriples w h (l1 ++ l2) g = applyTriples w h l2 (applyTriples w h l1 g) :=
  List.foldl_append _ _ _ _

theorem applyTriples_dims (w h : Nat) (ts : List (Nat × Nat × Cell)) :
    ∀ (g : Grid), Dims g w h → Dims (applyTriples w h ts g) w h := by
  induction ts with
  | nil => intro g hg; exact hg
  | cons t ts ih =>
    intro g hg
    rw [applyTriples_cons]
    apply ih
    split
    · exact setCell_dims _ _ _ _ _ _ hg
    · exact hg

theorem applyTriples_cellAt_notmem (w h : Nat) (ts : List (Nat × Nat × Cell)) :
    ∀ (g : Grid) (a b : Nat), (∀ t ∈ ts, ¬ (t.1 = a ∧ t.2.1 = b)) →
      cellAt (applyTriples w h ts g) a b = cellAt g a b := by
  induction ts with
  | nil => intro g a b _; rfl
  | cons t ts ih =>
    intro g a b hnot
    rw [applyTriples_cons, ih _ a b (fun t' ht' => hnot t' (List.mem_cons_of_mem t ht'))]
    split
    · exact setCell_cellAt_ne _ _ _ _ a b
        (fun hc => hnot t (List.mem_cons_self t ts) ⟨hc.1.symm ▸ rfl, hc.2.symm ▸ rfl⟩)
    · rfl

theorem applyTriples_cellAt_mem (w h : Nat) (ts : List (Nat × Nat × Cell)) (g : Grid)
    (hg : Dims g w h)
    (hnodup : (ts.map fun t => (t.1, t.2.1)).Nodup)
    (a b : Nat) (ha : a < w) (hb : b < h) (c : Cell)
    (hmem : (a, b, c) ∈ ts) :
    cellAt (applyTriples w h ts g) a b = some c := by
  obtain ⟨l1, l2, rfl⟩ := List.append_of_mem hmem
  have hsub : List.Sublist (((a, b, c) :: l2).map fun t => (t.1, t.2.1))
      ((l1 ++ (a, b, c) :: l2).map fun t => (t.1, t.2.1)) :=
    List.Sublist.map _ (List.sublist_append_right l1 _)
  have hnodup2 := (hnodup.sublist hsub)
  rw [List.map_cons, List.nodup_cons] at hnodup2
  have hnot2 : ∀ t ∈ l2, ¬ (t.1 = a ∧ t.2.1 = b) := by
    intro t ht hc
    exact hnodup2.1 (List.mem_map.mpr ⟨t, ht, by simp [hc.1, hc.2]⟩)
  rw [applyTriples_append, applyTriples_cons, if_pos ⟨ha, hb⟩,
    applyTriples_cellAt_notmem w h l2 _ a b hnot2]
  exact setCell_cellAt_self _ w h a b (applyTriples_dims w h l1 g hg) ha hb c

theorem nodup_of_length_le_one {α : Type} (l : List α) (h : l.length ≤ 1) : l.Nodup := by
  match l with
  | [] => exact List.nodup_nil
  | [a] => exact List.nodup_singleton a
  | _ :: _ :: _ => simp at h

/-- Keys of a row-major generated triple list are distinct when every
position contributes at most one triple carrying its own coordinates. -/
theorem keys_nodup_rowmajor (W H : Nat) (f : Nat → Nat → List (Nat × Nat × Cell))
    (hf : ∀ x y t, t ∈ f x y → t.1 = x ∧ t.2.1 = y)
    (hlen : ∀ x y, (f x y).length ≤ 1) :
    ((((List.range W).flatMap fun x => (List.range H).flatMap fun y => f x y)).map
      fun t => (t.1, t.2.1)).Nodup := by
  rw [List.map_flatMap, List.nodup_flatMap]
  constructor
  · intro x _
    rw [List.map_flatMap, List.nodup_flatMap]
    constructor
    · intro y _
      apply nodup_of_length_le_one
      rw [List.length_map]
      exact hlen x y
    · apply List.Pairwise.imp ?_ (List.pairwise_lt_range H)
      intro y y' hyy
      intro k hk hk'
      obtain ⟨t, ht, hkeq⟩ := List.mem_map.mp hk
      obtain ⟨t', ht', hkeq'⟩ := List.mem_map.mp hk'
      obtain ⟨h1x, h1y⟩ := hf x y t ht
      obtain ⟨h2x, h2y⟩ := hf x y' t' ht'
      rw [← hkeq'] at hkeq
      have heq2 : t.2.1 = t'.2.1 := congrArg Prod.snd hkeq
      rw [h1y, h2y] at heq2
      omega
  · apply List.Pairwise.imp ?_ (List.pairwise_lt_range W)
    intro x x' hxx
    intro k hk hk'
    obtain ⟨t, ht, hkeq⟩ := List.mem_map.mp hk
    obtain ⟨y, _, ht2⟩ := List.mem_flatMap.mp ht
    obtain ⟨t', ht', hkeq'⟩ := List.mem_map.mp hk'
    obtain ⟨y', _, ht2'⟩ := List.mem_flatMap.mp ht'
    obtain ⟨h1x, _⟩ := hf x y t ht2
    obtain ⟨h2x, _⟩ := hf x' y' t' ht2'
    rw [← hkeq'] at hkeq
    obtain ⟨heq1, _⟩ := Prod.mk.inj hkeq
    rw [h1x, h2x] at heq1
    omega

theorem deltaTriples_keys_nodup (prev curr : Grid) (cs : Nat) :
    ((deltaTriples prev curr cs).map fun t => (t.1, t.2.1)).Nodup := by
  unfold deltaTriples
  apply keys_nodup_rowmajor
  · intro x y t ht
    split at ht
    · rw [List.mem_singleton] at ht
      subst ht
      exact ⟨rfl, rfl⟩
    · simp at ht
  · intro x y
    split <;> simp

theorem cell_ext_upto (cs : Nat) (p c : Cell)
    (hp : p.length = cs) (hc : c.length = cs)
    (h : ∀ j, j < cs → p.get? j = c.get? j) : p = c := by
  apply List.ext_get?
  intro n
  by_cases hn : n < cs
  · exact h n hn
  · rw [List.get?_eq_none.mpr (by omega), List.get?_eq_none.mpr (by omega)]

/-- Where the change test fails, the two grids hold the same cell. -/
theorem cellAt_eq_of_not_changed (w h cs : Nat) (hcs : cs = 1 ∨ cs = 3)
    (prev curr : Grid) (hprev : GridShape prev w h cs) (hcurr : GridShape curr w h cs)
    (a b : Nat) (ha : a < w) (hb : b < h)
    (hchg : ¬ cellChanged prev curr cs a b) : cellAt prev a b = cellAt curr a b := by
  obtain ⟨colp, cp, hcolp, hcp, hcellp⟩ := cellAt_eq_of_dims prev w h a b hprev.dims ha hb
  obtain ⟨colc, cc, hcolc, hcc, hcellc⟩ := cellAt_eq_of_dims curr w h a b hcurr.dims ha hb
  have hcp_len : cp.length = cs :=
    (hprev.2 colp (List.get?_mem hcolp)).2 cp (List.get?_mem hcp)
  have hcc_len : cc.length = cs :=
    (hcurr.2 colc (List.get?_mem hcolc)).2 cc (List.get?_mem hcc)
  rw [hcellp, hcellc]
  unfold cellChanged at hchg
  rw [hcellp, hcellc] at hchg
  simp only [Option.getD_some] at hchg
  congr 1
  apply cell_ext_upto cs cp cc hcp_len hcc_len
  intro j hj
  rcases hcs with h1 | h3
  · subst h1
    rw [if_pos rfl] at hchg
    interval_cases j
    exact not_not.mp hchg
  · subst h3
    rw [if_neg (by norm_num)] at hchg
    push_neg at hchg
    interval_cases j
    · exact hchg.1
    · exact hchg.2.1
    · exact hchg.2.2

/-- Applying the change list of `calculateDelta` to the previous grid
reconstructs the current grid. -/
theorem applyTriples_deltaTriples (w h cs : Nat) (hcs : cs = 1 ∨ cs = 3)
    (prev curr : Grid) (hprev : GridShape prev w h cs) (hcurr : GridShape curr w h cs) :
    applyTriples w h (deltaTriples prev curr cs) prev = curr := by
  apply grid_ext _ _ w h (applyTriples_dims _ _ _ _ hprev.dims) hcurr.dims
  intro a b ha hb
  have hWl : prev.length = w := hprev.1
  have hcol0 : (prev.getD 0 []).length = h := by
    have hw0 : 0 < prev.length := by omega
    have hmem : prev.getD 0 [] ∈ prev := by
      rw [List.getD_eq_get?, List.get?_eq_get hw0]
      exact List.get_mem prev 0 hw0
    exact (hprev.2 _ hmem).1
  obtain ⟨colc, cc, hcolc, hcc, hcellc⟩ := cellAt_eq_of_dims curr w h a b hcurr.dims ha hb
  by_cases hchg : cellChanged prev curr cs a b
  · have hmem : (a, b, (cellAt curr a b).getD []) ∈ deltaTriples prev curr cs :=
      (mem_deltaTriples prev curr cs _).mpr
        ⟨by rw [hWl]; exact ha, by rw [hcol0]; exact hb, hchg, rfl⟩
    rw [applyTriples_cellAt_mem w h _ prev hprev.dims
      (deltaTriples_keys_nodup prev curr cs) a b ha hb _ hmem, hcellc]
    rfl
  · have hnot : ∀ t ∈ deltaTriples prev curr cs, ¬ (t.1 = a ∧ t.2.1 = b) := by
      intro t ht hc
      obtain ⟨_, _, hchg', _⟩ := (mem_deltaTriples prev curr cs t).mp ht
      rw [hc.1, hc.2] at hchg'
      exact hchg hchg'
    rw [applyTriples_cellAt_notmem w h _ prev a b hnot]
    exact cellAt_eq_of_not_changed w h cs hcs prev curr hprev hcurr a b ha hb hchg

theorem flatMap_nil_of_blocks_cons (ts : List (Nat × Nat × Cell))
    (hnil : (ts.flatMap fun t => t.1 :: t.2.1 :: t.2.2) = []) : ts = [] := by
  cases ts with
  | nil => rfl
  | cons t rest => simp at hnil

/-- An empty change list means the processed grid equals the snapshot. -/
theorem calculateDelta_nil_imp_eq (w h cs : Nat) (hcs : cs = 1 ∨ cs = 3)
    (prev curr : Grid) (hprev : GridShape prev w h cs) (hcurr : GridShape curr w h cs)
    (hnil : calculateDelta prev curr cs = []) : prev = curr := by
  rw [calculateDelta_eq_flatMap] at hnil
  have htriples := flatMap_nil_of_blocks_cons _ hnil
  apply grid_ext _ _ w h hprev.dims hcurr.dims
  intro a b ha hb
  have hWl : prev.length = w := hprev.1
  have hcol0 : (prev.getD 0 []).length = h := by
    have hw0 : 0 < prev.length := by omega
    have hmem : prev.getD 0 [] ∈ prev := by
      rw [List.getD_eq_get?, List.get?_eq_get hw0]
      exact List.get_mem prev 0 hw0
    exact (hprev.2 _ hmem).1
  have hchg : ¬ cellChanged prev curr cs a b := by
    intro hchg
    have hmem : (a, b, (cellAt curr a b).getD []) ∈ deltaTriples prev curr cs :=
      (mem_deltaTriples prev curr cs _).mpr
        ⟨by rw [hWl]; exact ha, by rw [hcol0]; exact hb, hchg, rfl⟩
    rw [htriples] at hmem
    simp at hmem
  exact cellAt_eq_of_not_changed w h cs hcs prev curr hprev hcurr a b ha hb hchg

theorem foldl_flatMap {α β γ : Type} (l : List α) (f : α → List β) (step : γ → β → γ) :
    ∀ (init : γ), (l.flatMap f).foldl step init =
      l.foldl (fun acc a => (f a).foldl step acc) init := by
  induction l with
  | nil => intro init; rfl
  | cons a as ih =>
    intro init
    rw [List.flatMap_cons, List.foldl_append, List.foldl_cons, ih]

/-- The snapshot-update loop overwrites every cell of the snapshot with
the processed grid's cell, so on same-shaped grids it returns the
processed grid. -/
theorem updateLastKeyframe_eq (w h : Nat) (prev processed : Grid)
    (hprev : Dims prev w h) (hproc : Dims processed w h) :
    updateLastKeyframe w h prev processed = processed := by
  have hstep : updateLastKeyframe w h prev processed =
      applyTriples w h ((List.range w).flatMap fun x => (List.range h).flatMap fun y =>
        [(x, y, (cellAt processed x y).getD [])]) prev := by
    unfold updateLastKeyframe applyTriples
    rw [foldl_flatMap]
    apply List.foldl_ext
    intro acc x hx
    rw [foldl_flatMap]
    apply List.foldl_ext
    intro acc2 y hy
    rw [List.mem_range] at hx hy
    obtain ⟨_, c, _, _, hcell⟩ := cellAt_eq_of_dims processed w h x y hproc hx hy
    rw [hcell]
    simp only [List.foldl_cons, List.foldl_nil]
    rw [if_pos ⟨hx, hy⟩]
    rfl
  rw [hstep]
  have hnodup := keys_nodup_rowmajor w h
    (fun x y => [(x, y, (cellAt processed x y).getD [])])
    (fun x y t ht => by rw [List.mem_singleton] at ht; subst ht; exact ⟨rfl, rfl⟩)
    (fun x y => by simp)
  apply grid_ext _ _ w h (applyTriples_dims _ _ _ _ hprev) hproc
  intro a b ha hb
  obtain ⟨colp, cp, hcolp, hcp, hcellp⟩ := cellAt_eq_of_dims processed w h a b hproc ha hb
  have hmem : (a, b, (cellAt processed a b).getD []) ∈
      (List.range w).flatMap fun x => (List.range h).flatMap fun y =>
        [(x, y, (cellAt processed x y).getD [])] := by
    refine List.mem_flatMap.mpr ⟨a, List.mem_range.mpr ha, ?_⟩
    refine List.mem_flatMap.mpr ⟨b, List.mem_range.mpr hb, ?_⟩
    exact List.mem_singleton.mpr rfl
  rw [applyTriples_cellAt_mem w h _ prev hprev hnodup a b ha hb _ hmem, hcellp]
  rfl

/-! ## The decoder's delta loop agrees with the triple fold -/

/-- A cell produced by `cellAt` lives in the grid. -/
theorem cellAt_mem (g : Grid) (x y : Nat) (c : Cell) (h : cellAt g x y = some c) :
    ∃ col ∈ g, c ∈ col := by
  unfold cellAt at h
  cases hcol : g.get? x with
  | none => rw [hcol] at h; simp at h
  | some col =>
    rw [hcol] at h
    simp only [Option.some_bind] at h
    exact ⟨col, List.get?_mem hcol, List.get?_mem h⟩

theorem applyChanges_eq_applyTriples (w h cs : Nat) (hcs : cs = 1 ∨ cs = 3) :
    ∀ (ts : List (Nat × Nat × Cell)) (dd : List Nat) (i : Nat) (g : Grid),
      dd.drop i = (ts.flatMap fun t => t.1 :: t.2.1 :: t.2.2) →
      (∀ t ∈ ts, t.2.2.length = cs) →
      applyChanges w h cs dd i ts.length g = applyTriples w h ts g := by
  intro ts
  induction ts with
  | nil => intro dd i g _ _; rfl
  | cons t ts ih =>
    intro dd i g hdrop hlen
    have hcell_len : t.2.2.length = cs := hlen t (List.mem_cons_self _ _)
    rw [List.flatMap_cons] at hdrop
    simp only [List.cons_append] at hdrop
    have h0 : dd.get? i = some t.1 := by
      have h' := List.get?_drop dd i 0
      rw [hdrop] at h'
      simpa using h'.symm
    have h1 : dd.get? (i + 1) = some t.2.1 := by
      have h' := List.get?_drop dd i 1
      rw [hdrop] at h'
      simpa using h'.symm
    have hpay : ∀ j, j < cs → dd.getD (i + 2 + j) 0 = t.2.2.getD j 0 := by
      intro j hj
      have h' := List.get?_drop dd i (j + 2)
      rw [hdrop] at h'
      have hred : (t.1 :: t.2.1 ::
          (t.2.2 ++ ts.flatMap fun t => t.1 :: t.2.1 :: t.2.2)).get? (j + 2) =
          (t.2.2 ++ ts.flatMap fun t => t.1 :: t.2.1 :: t.2.2).get? j := rfl
      rw [hred, List.get?_append (by omega)] at h'
      rw [List.getD_eq_get?, List.getD_eq_get?,
        show i + 2 + j = i + (j + 2) from by omega, ← h']
    rw [show (t :: ts).length = ts.length + 1 from rfl, applyChanges, h0, h1]
    have hdrop' : dd.drop (i + 2 + cs) = ts.flatMap fun t => t.1 :: t.2.1 :: t.2.2 := by
      rw [show i + 2 + cs = i + (cs + 2) from by omega, ← List.drop_drop, hdrop]
      show (t.2.2 ++ ts.flatMap fun t => t.1 :: t.2.1 :: t.2.2).drop cs = _
      exact List.drop_left' hcell_len
    rw [applyTriples_cons,
      ← ih dd (i + 2 + cs) _ hdrop' (fun t' ht' => hlen t' (List.mem_cons_of_mem _ ht'))]
    congr 1
    show (if t.1 < w ∧ t.2.1 < h then
        setCell g t.1 t.2.1 (if cs = 1 then [dd.getD (i + 2) 0]
          else [dd.getD (i + 2) 0, dd.getD (i + 3) 0, dd.getD (i + 4) 0])
      else g) = _
    by_cases hbound : t.1 < w ∧ t.2.1 < h
    · rw [if_pos hbound, if_pos hbound]
      congr 1
      rcases hcs with h1c | h3c
      · subst h1c
        rw [if_pos rfl]
        have hp0 := hpay 0 (by norm_num)
        rw [Nat.add_zero] at hp0
        rw [hp0]
        exact cell_eq_one _ hcell_len
      · subst h3c
        rw [if_neg (by norm_num)]
        have hp0 := hpay 0 (by norm_num)
        rw [Nat.add_zero] at hp0
        have hp1 := hpay 1 (by norm_num)
        have hp2 := hpay 2 (by norm_num)
        rw [show i + 2 + 1 = i + 3 from by omega] at hp1
        rw [show i + 2 + 2 = i + 4 from by omega] at hp2
        rw [hp0, hp1, hp2]
        exact cell_eq_three _ hcell_len
    · rw [if_neg hbound, if_neg hbound]

theorem flatMap_blocks_length (ts : List (Nat × Nat × Cell)) (cs : Nat)
    (hl : ∀ t ∈ ts, t.2.2.length = cs) :
    (ts.flatMap fun t => t.1 :: t.2.1 :: t.2.2).length = ts.length * (2 + cs) := by
  induction ts with
  | nil => simp
  | cons t ts ih =>
    rw [List.flatMap_cons, List.length_append]
    have h1 : (t.1 :: t.2.1 :: t.2.2).length = 2 + cs := by
      simp only [List.length_cons, hl t (List.mem_cons_self _ _)]
      omega
    rw [h1, ih (fun t' ht' => hl t' (List.mem_cons_of_mem _ ht'))]
    simp only [List.length_cons]
    ring

theorem length_flatMap_le {α β : Type} (l : List α) (f : α → List β) (k : Nat)
    (hf : ∀ a ∈ l, (f a).length ≤ k) : (l.flatMap f).length ≤ l.length * k := by
  induction l with
  | nil => simp
  | cons a as ih =>
    rw [List.flatMap_cons, List.length_append, List.length_cons]
    have h1 := hf a (List.mem_cons_self _ _)
    have h2 := ih (fun a' ha' => hf a' (List.mem_cons_of_mem _ ha'))
    calc (f a).length + (as.flatMap f).length ≤ k + as.length * k := by omega
    _ = (as.length + 1) * k := by ring

theorem deltaTriples_length_le (prev curr : Grid) (cs : Nat) :
    (deltaTriples prev curr cs).length ≤ prev.length * (prev.getD 0 []).length := by
  unfold deltaTriples
  have h1 : ∀ x ∈ List.range prev.length,
      ((List.range (prev.getD 0 []).length).flatMap fun y =>
        if cellChanged prev curr cs x y then
          [(x, y, (cellAt curr x y).getD [])] else []).length ≤
      (prev.getD 0 []).length := by
    intro x _
    have h2 := length_flatMap_le (List.range (prev.getD 0 []).length)
      (fun y => if cellChanged prev curr cs x y then
        [(x, y, (cellAt curr x y).getD [])] else []) 1
      (fun y _ => by
        show (if cellChanged prev curr cs x y then
          [(x, y, (cellAt curr x y).getD [])] else []).length ≤ 1
        split <;> simp)
    simpa using h2
  have h3 := length_flatMap_le _ _ _ h1
  simpa using h3

theorem deltaTriples_cell_len (w h cs : Nat) (prev curr : Grid)
    (hcurr : GridShape curr w h cs) (hWl : prev.length = w)
    (hcol0 : 0 < w → (prev.getD 0 []).length = h) :
    ∀ t ∈ deltaTriples prev curr cs, t.2.2.length = cs := by
  intro t ht
  obtain ⟨hx, hy, _, hcell⟩ := (mem_deltaTriples prev curr cs t).mp ht
  have hw0 : 0 < w := by omega
  obtain ⟨colc, cc, hcolc, hcc, hcellc⟩ := cellAt_eq_of_dims curr w h t.1 t.2.1
    hcurr.dims (by omega) (by rw [← hcol0 hw0]; exact hy)
  rw [hcell, hcellc]
  exact (hcurr.2 colc (List.get?_mem hcolc)).2 cc (List.get?_mem hcc)

theorem calculateDelta_bytes (w h cs : Nat) (prev curr : Grid)
    (hprev : GridShape prev w h cs) (hcurr : GridShape curr w h cs)
    (hw : w ≤ 256) (hh : h ≤ 256)
    (hbytes : ∀ col ∈ curr, ∀ c ∈ col, ∀ b ∈ c, b < 256) :
    ∀ v ∈ calculateDelta prev curr cs, v < 256 := by
  rw [calculateDelta_eq_flatMap]
  intro v hv
  obtain ⟨t, ht, hv2⟩ := List.mem_flatMap.mp hv
  obtain ⟨hx, hy, _, hcell⟩ := (mem_deltaTriples prev curr cs t).mp ht
  have hWl : prev.length = w := hprev.1
  have hw0 : 0 < w := by omega
  have hcol0 : (prev.getD 0 []).length = h := by
    have hl0 : 0 < prev.length := by omega
    have hmem : prev.getD 0 [] ∈ prev := by
      rw [List.getD_eq_get?, List.get?_eq_get hl0]
      exact List.get_mem prev 0 hl0
    exact (hprev.2 _ hmem).1
  rcases List.mem_cons.mp hv2 with hveq | hv3
  · omega
  rcases List.mem_cons.mp hv3 with hveq | hv4
  · rw [hcol0] at hy
    omega
  · obtain ⟨colc, cc, hcolc, hcc, hcellc⟩ := cellAt_eq_of_dims curr w h t.1 t.2.1
      hcurr.dims (by omega) (by rw [hcol0] at hy; exact hy)
    rw [hcell, hcellc] at hv4
    obtain ⟨col, hcol, hcmem⟩ := cellAt_mem curr t.1 t.2.1 cc hcellc
    exact hbytes col hcol cc hcmem v (by simpa using hv4)

/-! ## Parsing an encoded buffer -/

theorem u16_roundtrip (n : Nat) (h : n < 65536) :
    n % 256 + 256 * (n / 256 % 256) = n := by omega

theorem u32_roundtrip (n : Nat) (h : n < 4294967296) :
    n % 256 + 256 * (n / 256 % 256) + 65536 * (n / 65536 % 256) +
      16777216 * (n / 16777216 % 256) = n := by omega

theorem getD_at_drop (buf : List Nat) (off k d : Nat) (l : List Nat)
    (hdrop : buf.drop off = l) : buf.getD (off + k) d = l.getD k d := by
  rw [← getD_drop, hdrop]

theorem flatMap_three_length {α : Type} (l : List α) (f1 f2 f3 : α → Nat) :
    (l.flatMap fun c => [f1 c, f2 c, f3 c]).length = 3 * l.length := by
  induction l with
  | nil => rfl
  | cons c cs ih =>
    rw [List.flatMap_cons, List.length_append, ih]
    simp only [List.length_cons, List.length_nil]
    omega

/-- The frame-record walk of `parse` recovers the encoder's frame list
from the frame section (the stored type byte is the type modulo 256). -/
theorem readFrames_spec : ∀ (fs : List EncodedFrame) (buf : List Nat) (off : Nat),
    buf.drop off = (fs.flatMap fun f => f.type % 256 :: (u32le f.data.length ++ f.data)) →
    (∀ f ∈ fs, f.data.length < 4294967296) →
    readFrames buf off fs.length = fs.map fun f => ⟨f.type % 256, f.data⟩ := by
  intro fs
  induction fs with
  | nil => intro buf off _ _; rfl
  | cons f fs ih =>
    intro buf off hdrop hlen
    rw [List.flatMap_cons] at hdrop
    simp only [u32le, List.cons_append, List.nil_append, List.append_assoc] at hdrop
    have htype : buf.getD off 0 = f.type % 256 := by
      have h' := getD_at_drop buf off 0 0 _ hdrop
      simpa using h'
    have hb1 : buf.getD (off + 1) 0 = f.data.length % 256 := by
      simpa using getD_at_drop buf off 1 0 _ hdrop
    have hb2 : buf.getD (off + 1 + 1) 0 = f.data.length / 256 % 256 := by
      simpa [show off + 1 + 1 = off + 2 from by omega] using getD_at_drop buf off 2 0 _ hdrop
    have hb3 : buf.getD (off + 1 + 2) 0 = f.data.length / 65536 % 256 := by
      simpa [show off + 1 + 2 = off + 3 from by omega] using getD_at_drop buf off 3 0 _ hdrop
    have hb4 : buf.getD (off + 1 + 3) 0 = f.data.length / 16777216 % 256 := by
      simpa [show off + 1 + 3 = off + 4 from by omega] using getD_at_drop buf off 4 0 _ hdrop
    have hsz : getUint32 buf (off + 1) = f.data.length := by
      unfold getUint32
      rw [hb1, hb2, hb3, hb4]
      exact u32_roundtrip _ (hlen f (List.mem_cons_self _ _))
    have hdrop5 : buf.drop (off + 5) =
        f.data ++ fs.flatMap fun f => f.type % 256 :: (u32le f.data.length ++ f.data) := by
      rw [← List.drop_drop, hdrop]
      rfl
    have hdata : (buf.drop (off + 5)).take (getUint32 buf (off + 1)) = f.data := by
      rw [hsz, hdrop5]
      exact List.take_left' rfl
    have hdroprec : buf.drop (off + 5 + f.data.length) =
        fs.flatMap fun f => f.type % 256 :: (u32le f.data.length ++ f.data) := by
      rw [← List.drop_drop, hdrop5]
      exact List.drop_left' rfl
    rw [show (f :: fs).length = fs.length + 1 from rfl, readFrames, List.map_cons,
      htype, hdata, hsz]
    exact congrArg _ (ih buf _ hdroprec (fun f' hf' => hlen f' (List.mem_cons_of_mem _ hf')))

/-- The header that `parse` reconstructs from an encoded buffer (with
in-range configuration, every field the encoder wrote). -/
def encHeader (e : EncoderState) : TXAHeader :=
  { version := 2,
    colorMode := e.colorMode,
    width := e.width,
    height := e.height,
    fps := e.fps % 256,
    totalFrames := e.frames.length,
    charCount := e.characters.length,
    colorCount := e.colorPalette.length,
    bgColor := ⟨e.bgColor.r % 256, e.bgColor.g % 256, e.bgColor.b % 256⟩,
    changeSpeed := ((round (e.changeSpeed * 10)).toNat % 256 : Nat) / (10 : ℚ),
    canvasRatio := e.canvasRatio % 256,
    lumBits := e.lumBits % 256 }

set_option maxHeartbeats 3200000 in
/-- Parsing an encoded buffer succeeds with the encoder's header and
frame records, a fresh all-zero grid and the cursor before frame 0,
whenever the configuration fits the format's fixed-width fields. -/
theorem parse_encode (s : DecoderState) (e : EncoderState)
    (hcm : e.colorMode < 256)
    (hw : e.width < 65536) (hh : e.height < 65536)
    (hchars : e.characters.length < 256)
    (hpal : e.colorPalette.length < 65536)
    (hfcnt : e.frames.length < 4294967296)
    (hfdata : ∀ f ∈ e.frames, f.data.length < 4294967296) :
    (parse s (encode e)).2 = some (encHeader e) ∧
    (parse s (encode e)).1.header = some (encHeader e) ∧
    (parse s (encode e)).1.frames = e.frames.map (fun f => ⟨f.type % 256, f.data⟩) ∧
    (parse s (encode e)).1.currentFrameIndex = -1 ∧
    (parse s (encode e)).1.currentGrid = some (initGridOf (encHeader e)) := by
  have hdrop32 : (encode e).drop 32 = charBytes e ++ (palBytes e ++ frameBytes e) := rfl
  have hhdr :
      ({ version := (encode e).getD 4 0,
         colorMode := (encode e).getD 5 0,
         width := getUint16 (encode e) 6,
         height := getUint16 (encode e) 8,
         fps := (encode e).getD 10 0,
         totalFrames := getUint32 (encode e) 11,
         charCount := (encode e).getD 15 0,
         colorCount := getUint16 (encode e) 16,
         bgColor := ⟨(encode e).getD 18 0, (encode e).getD 19 0, (encode e).getD 20 0⟩,
         changeSpeed := ((encode e).getD 21 0 : ℚ) / 10,
         canvasRatio := (encode e).getD 22 0,
         lumBits := (encode e).getD 23 0 } : TXAHeader) = encHeader e := by
    have hbytes :
        ({ version := (encode e).getD 4 0,
           colorMode := (encode e).getD 5 0,
           width := getUint16 (encode e) 6,
           height := getUint16 (encode e) 8,
           fps := (encode e).getD 10 0,
           totalFrames := getUint32 (encode e) 11,
           charCount := (encode e).getD 15 0,
           colorCount := getUint16 (encode e) 16,
           bgColor := ⟨(encode e).getD 18 0, (encode e).getD 19 0, (encode e).getD 20 0⟩,
           changeSpeed := ((encode e).getD 21 0 : ℚ) / 10,
           canvasRatio := (encode e).getD 22 0,
           lumBits := (encode e).getD 23 0 } : TXAHeader) =
        { version := 2,
          colorMode := e.colorMode % 256,
          width := e.width % 256 + 256 * (e.width / 256 % 256),
          height := e.height % 256 + 256 * (e.height / 256 % 256),
          fps := e.fps % 256,
          totalFrames := e.frames.length % 256 + 256 * (e.frames.length / 256 % 256) +
            65536 * (e.frames.length / 65536 % 256) +
            16777216 * (e.frames.length / 16777216 % 256),
          charCount := e.characters.length % 256,
          colorCount := e.colorPalette.length % 256 +
            256 * (e.colorPalette.length / 256 % 256),
          bgColor := ⟨e.bgColor.r % 256, e.bgColor.g % 256, e.bgColor.b % 256⟩,
          changeSpeed := ((round (e.changeSpeed * 10)).toNat % 256 : Nat) / (10 : ℚ),
          canvasRatio := e.canvasRatio % 256,
          lumBits := e.lumBits % 256 } := rfl
    rw [hbytes]
    unfold encHeader
    congr 1
    · exact Nat.mod_eq_of_lt hcm
    · exact u16_roundtrip _ hw
    · exact u16_roundtrip _ hh
    · exact u32_roundtrip _ hfcnt
    · exact Nat.mod_eq_of_lt hchars
    · exact u16_roundtrip _ hpal
  have hdropch : (encode e).drop (32 + e.characters.length) = palBytes e ++ frameBytes e := by
    have h2 : ((encode e).drop 32).drop e.characters.length =
        (encode e).drop (32 + e.characters.length) := by
      rw [List.drop_drop]
    rw [← h2, hdrop32]
    exact List.drop_left' (by simp [charBytes])
  have hdropfr : (encode e).drop (32 + e.characters.length + 3 * e.colorPalette.length) =
      frameBytes e := by
    have h2 : ((encode e).drop (32 + e.characters.length)).drop (3 * e.colorPalette.length) =
        (encode e).drop (32 + e.characters.length + 3 * e.colorPalette.length) := by
      rw [List.drop_drop]
    rw [← h2, hdropch]
    exact List.drop_left' (flatMap_three_length _ _ _ _)
  have hframes : readFrames (encode e) (32 + e.characters.length + 3 * e.colorPalette.length)
      e.frames.length = e.frames.map fun f => ⟨f.type % 256, f.data⟩ :=
    readFrames_spec e.frames (encode e) _ (by rw [hdropfr]; rfl) hfdata
  have hparse : parse s (encode e) =
      (initGrid { s with
          header := some (encHeader e),
          characters := (List.range (encHeader e).charCount).map fun i =>
            (encode e).getD (32 + i) 0,
          colorPalette := (List.range (encHeader e).colorCount).map fun i =>
            ⟨(encode e).getD (32 + (encHeader e).charCount + 3 * i) 0,
             (encode e).getD (32 + (encHeader e).charCount + 3 * i + 1) 0,
             (encode e).getD (32 + (encHeader e).charCount + 3 * i + 2) 0⟩,
          frames := readFrames (encode e)
            (32 + (encHeader e).charCount + 3 * (encHeader e).colorCount)
            (encHeader e).totalFrames },
        some (encHeader e)) := by
    have hm : ¬¬((encode e).getD 0 0 = 0x54 ∧ (encode e).getD 1 0 = 0x58 ∧
        (encode e).getD 2 0 = 0x41 ∧ (encode e).getD 3 0 = 0) :=
      not_not_intro ⟨rfl, rfl, rfl, rfl⟩
    have hv : ¬¬((encode e).getD 4 0 = 2) := not_not_intro rfl
    have hcc : (encode e).getD 15 0 = (encHeader e).charCount :=
      congrArg TXAHeader.charCount hhdr
    have hpc : getUint16 (encode e) 16 = (encHeader e).colorCount :=
      congrArg TXAHeader.colorCount hhdr
    have htf : getUint32 (encode e) 11 = (encHeader e).totalFrames :=
      congrArg TXAHeader.totalFrames hhdr
    unfold parse
    rw [if_neg hm, if_neg hv]
    simp only [hhdr]
    simp only [hcc, hpc, htf]
  rw [hparse]
  exact ⟨rfl, rfl, hframes, rfl, rfl⟩

/-! ## Encoder sessions and the end-to-end round trip (C1) -/

theorem initGridOf_dims (h : TXAHeader) : Dims (initGridOf h) h.width h.height := by
  refine ⟨by simp [initGridOf], ?_⟩
  intro col hcol
  obtain ⟨x, _, hcoleq⟩ := List.mem_map.mp hcol
  subst hcoleq
  simp

theorem mem_map_mod_lt (l : List Nat) : ∀ b ∈ l.map (· % 256), b < 256 := by
  intro b hb
  obtain ⟨a, _, rfl⟩ := List.mem_map.mp hb
  exact Nat.mod_lt _ (by norm_num)

theorem flattenGrid_bytes (w h cm : Nat) (g : Grid)
    (hb : ∀ col ∈ g, ∀ c ∈ col, ∀ b ∈ c, b < 256) :
    ∀ b ∈ flattenGrid w h cm g, b < 256 := by
  intro b hbmem
  unfold flattenGrid at hbmem
  obtain ⟨y, _, hb2⟩ := List.mem_flatMap.mp hbmem
  obtain ⟨x, _, hb3⟩ := List.mem_flatMap.mp hb2
  cases hcell : cellAt g x y with
  | none =>
    rw [hcell] at hb3
    simp only [Option.getD_none] at hb3
    by_cases hcm : cm = 0
    · rw [if_pos hcm] at hb3
      simp only [List.mem_singleton] at hb3
      omega
    · rw [if_neg hcm] at hb3
      simp only [List.mem_cons, List.not_mem_nil, or_false] at hb3
      rcases hb3 with h | h | h <;> omega
  | some c =>
    rw [hcell] at hb3
    obtain ⟨col, hcol, hcmem⟩ := cellAt_mem g x y c hcell
    exact hb col hcol c hcmem b (by simpa using hb3)

theorem flatten_length_const {α : Type} (cs : Nat) :
    ∀ L : List (List α), (∀ l ∈ L, l.length = cs) →
      L.flatten.length = L.length * cs := by
  intro L
  induction L with
  | nil => intro _; simp
  | cons l ls ih =>
    intro hl
    rw [List.flatten_cons, List.length_append, hl l (List.mem_cons_self _ _),
      ih (fun l' hl' => hl l' (List.mem_cons_of_mem _ hl'))]
    simp only [List.length_cons]
    ring

theorem flattenGrid_length (w h cm cs : Nat) (hcs : cs = if cm = 0 then 1 else 3)
    (g : Grid) (hcells : ∀ col ∈ g, ∀ c ∈ col, c.length = cs) :
    (flattenGrid w h cm g).length = w * h * cs := by
  have hdflt : (if cm = 0 then [0] else ([0, 0, 0] : Cell)).length = cs := by
    rw [hcs]
    split <;> rfl
  rw [flattenGrid_eq, flatten_length_const cs _
    (cellSeq_mem_length w h _ g cs hdflt hcells), cellSeq_length]
  ring

/-- `pureGrid` only looks at the frame prefix it replays: frames
appended later do not change it. -/
theorem pureGrid_append (h : TXAHeader) (fr ext : List TXAFrame) :
    ∀ n, n ≤ fr.length → pureGrid h (fr ++ ext) n = pureGrid h fr n := by
  intro n
  induction n with
  | zero => intro _; rfl
  | succ n ih =>
    intro hn
    show frameTransform h ((fr ++ ext).getD n ⟨0, []⟩) (pureGrid h (fr ++ ext) n) =
      frameTransform h (fr.getD n ⟨0, []⟩) (pureGrid h fr n)
    rw [List.getD_append _ _ _ _ (by omega), ih (by omega)]

/-- The keyframe branch of `addFrame`, as a record equation. -/
theorem addFrame_keyframe (e : EncoderState) (g : Grid)
    (hc : e.frameCount % e.keyframeInterval = 0 ∨ e.lastKeyframe = none) :
    addFrame e g = { e with
      frames := e.frames ++ [⟨0, compress ((flattenGrid e.width e.height e.colorMode
        (processGrid e.colorMode e.lumBits g)).map (· % 256))⟩],
      lastKeyframe := some (processGrid e.colorMode e.lumBits g),
      frameCount := e.frameCount + 1 } := by
  simp only [addFrame]
  rw [if_pos hc]

/-- The delta branch of `addFrame`, as a record equation. -/
theorem addFrame_delta (e : EncoderState) (g : Grid)
    (hc : ¬ (e.frameCount % e.keyframeInterval = 0 ∨ e.lastKeyframe = none)) :
    addFrame e g = { e with
      frames :=
        (if calculateDelta (e.lastKeyframe.getD []) (processGrid e.colorMode e.lumBits g)
            (if e.colorMode = 0 then 1 else 3) = [] then
          e.frames ++ [⟨1, [0, 0]⟩]
        else
          e.frames ++
            [⟨1, ((calculateDelta (e.lastKeyframe.getD [])
                  (processGrid e.colorMode e.lumBits g)
                  (if e.colorMode = 0 then 1 else 3)).length /
                  (2 + if e.colorMode = 0 then 1 else 3)) / 256 % 256 ::
                ((calculateDelta (e.lastKeyframe.getD [])
                  (processGrid e.colorMode e.lumBits g)
                  (if e.colorMode = 0 then 1 else 3)).length /
                  (2 + if e.colorMode = 0 then 1 else 3)) % 256 ::
                compress ((calculateDelta (e.lastKeyframe.getD [])
                  (processGrid e.colorMode e.lumBits g)
                  (if e.colorMode = 0 then 1 else 3)).map (· % 256))⟩]),
      lastKeyframe := some (updateLastKeyframe e.width e.height (e.lastKeyframe.getD [])
        (processGrid e.colorMode e.lumBits g)),
      frameCount := e.frameCount + 1 } := by
  simp only [addFrame]
  rw [if_neg hc]

/-- `addFrame` never touches the configuration fields. -/
theorem addFrame_config (e : EncoderState) (g : Grid) :
    (addFrame e g).width = e.width ∧ (addFrame e g).height = e.height ∧
    (addFrame e g).colorMode = e.colorMode ∧ (addFrame e g).lumBits = e.lumBits ∧
    (addFrame e g).keyframeInterval = e.keyframeInterval ∧
    (addFrame e g).fps = e.fps ∧ (addFrame e g).characters = e.characters ∧
    (addFrame e g).colorPalette = e.colorPalette ∧
    (addFrame e g).bgColor = e.bgColor ∧
    (addFrame e g).changeSpeed = e.changeSpeed ∧
    (addFrame e g).canvasRatio = e.canvasRatio := by
  by_cases hc : e.frameCount % e.keyframeInterval = 0 ∨ e.lastKeyframe = none
  · rw [addFrame_keyframe e g hc]
    exact ⟨rfl, rfl, rfl, rfl, rfl, rfl, rfl, rfl, rfl, rfl, rfl⟩
  · rw [addFrame_delta e g hc]
    exact ⟨rfl, rfl, rfl, rfl, rfl, rfl, rfl, rfl, rfl, rfl, rfl⟩

theorem foldl_addFrame_config (gs : List Grid) : ∀ e : EncoderState,
    (gs.foldl addFrame e).width = e.width ∧ (gs.foldl addFrame e).height = e.height ∧
    (gs.foldl addFrame e).colorMode = e.colorMode ∧
    (gs.foldl addFrame e).lumBits = e.lumBits ∧
    (gs.foldl addFrame e).keyframeInterval = e.keyframeInterval ∧
    (gs.foldl addFrame e).fps = e.fps ∧
    (gs.foldl addFrame e).characters = e.characters ∧
    (gs.foldl addFrame e).colorPalette = e.colorPalette ∧
    (gs.foldl addFrame e).bgColor = e.bgColor ∧
    (gs.foldl addFrame e).changeSpeed = e.changeSpeed ∧
    (gs.foldl addFrame e).canvasRatio = e.canvasRatio := by
  induction gs with
  | nil =>
    intro e
    exact ⟨rfl, rfl, rfl, rfl, rfl, rfl, rfl, rfl, rfl, rfl, rfl⟩
  | cons g gs ih =>
    intro e
    obtain ⟨h1, h2, h3, h4, h5, h6, h7, h8, h9, h10, h11⟩ := ih (addFrame e g)
    obtain ⟨g1, g2, g3, g4, g5, g6, g7, g8, g9, g10, g11⟩ := addFrame_config e g
    exact ⟨h1.trans g1, h2.trans g2, h3.trans g3, h4.trans g4, h5.trans g5,
      h6.trans g6, h7.trans g7, h8.trans g8, h9.trans g9, h10.trans g10, h11.trans g11⟩

/-- `frameTransform` on a type-0 (keyframe) record. -/
theorem frameTransform_type0 (H : TXAHeader) (d : List Nat) (g : Grid) :
    frameTransform H ⟨0, d⟩ g =
      applyKeyframeGrid H.width H.height (if H.colorMode = 0 then 1 else 3)
        (decompress d (H.width * H.height * (if H.colorMode = 0 then 1 else 3))) g := by
  unfold frameTransform
  rw [if_pos rfl]

/-- `frameTransform` on a type-1 (delta) record. -/
theorem frameTransform_type1 (H : TXAHeader) (d : List Nat) (g : Grid) :
    frameTransform H ⟨1, d⟩ g =
      if d.getD 0 0 * 256 + d.getD 1 0 = 0 then g
      else applyChanges H.width H.height (if H.colorMode = 0 then 1 else 3)
        (decompress (d.drop 2)
          ((d.getD 0 0 * 256 + d.getD 1 0) * (2 + if H.colorMode = 0 then 1 else 3)))
        0 (d.getD 0 0 * 256 + d.getD 1 0) g := by
  unfold frameTransform
  rw [if_neg (Nat.one_ne_zero)]

/-- The degenerate delta record `[0, 0]` leaves the grid unchanged. -/
theorem frameTransform_degenerate (H : TXAHeader) (G : Grid) :
    frameTransform H ⟨1, [0, 0]⟩ G = G := by
  rw [frameTransform_type1]
  norm_num

/-- Replaying the keyframe record that `addFrame` emits for a grid
recovers the processed grid exactly. -/
theorem frameTransform_keyframe (H : TXAHeader) (lb : Nat) (g G : Grid)
    (hg : Dims g H.width H.height)
    (hgB : ∀ col ∈ g, ∀ c ∈ col, ∀ b ∈ c, b < 256)
    (hG : Dims G H.width H.height) :
    frameTransform H ⟨0, compress ((flattenGrid H.width H.height H.colorMode
      (processGrid H.colorMode lb g)).map (· % 256))⟩ G =
    processGrid H.colorMode lb g := by
  have hPshape : GridShape (processGrid H.colorMode lb g) H.width H.height
      (if H.colorMode = 0 then 1 else 3) := processGrid_shape _ _ _ _ _ hg
  have hPbytes : ∀ col ∈ processGrid H.colorMode lb g, ∀ c ∈ col, ∀ b ∈ c, b < 256 :=
    processGrid_bytes _ _ _ hgB
  have hcells : ∀ col ∈ processGrid H.colorMode lb g, ∀ c ∈ col,
      c.length = (if H.colorMode = 0 then 1 else 3) :=
    fun col hcol => (hPshape.2 col hcol).2
  have hflatB : ∀ b ∈ flattenGrid H.width H.height H.colorMode
      (processGrid H.colorMode lb g), b < 256 := flattenGrid_bytes _ _ _ _ hPbytes
  have hmapid : (flattenGrid H.width H.height H.colorMode
        (processGrid H.colorMode lb g)).map (· % 256) =
      flattenGrid H.width H.height H.colorMode (processGrid H.colorMode lb g) :=
    map_mod_id _ hflatB
  have hlen : (flattenGrid H.width H.height H.colorMode
        (processGrid H.colorMode lb g)).length =
      H.width * H.height * (if H.colorMode = 0 then 1 else 3) :=
    flattenGrid_length _ _ _ _ rfl _ hcells
  rw [frameTransform_type0]
  have hsz : H.width * H.height * (if H.colorMode = 0 then 1 else 3) =
      ((flattenGrid H.width H.height H.colorMode
        (processGrid H.colorMode lb g)).map (· % 256)).length := by
    rw [List.length_map, hlen]
  rw [hsz, decompress_compress _ (mem_map_mod_lt _), hmapid]
  exact applyKeyframeGrid_flatten H.width H.height H.colorMode _ rfl _ G hPshape hG

/-- Replaying the non-degenerate delta record that `addFrame` emits,
on the snapshot grid it was computed against, recovers the current
processed grid. -/
theorem frameTransform_delta (H : TXAHeader) (cs : Nat)
    (hcseq : cs = if H.colorMode = 0 then 1 else 3)
    (prev curr : Grid)
    (hprev : GridShape prev H.width H.height cs)
    (hcurr : GridShape curr H.width H.height cs)
    (hcurrB : ∀ col ∈ curr, ∀ c ∈ col, ∀ b ∈ c, b < 256)
    (hw : H.width ≤ 256) (hh : H.height ≤ 256) (hwh : H.width * H.height ≤ 65535)
    (hne : calculateDelta prev curr cs ≠ []) :
    frameTransform H
      ⟨1, ((calculateDelta prev curr cs).length / (2 + cs)) / 256 % 256 ::
          ((calculateDelta prev curr cs).length / (2 + cs)) % 256 ::
          compress ((calculateDelta prev curr cs).map (· % 256))⟩ prev = curr := by
  have hcs : cs = 1 ∨ cs = 3 := by
    rw [hcseq]
    split <;> simp
  have hWl : prev.length = H.width := hprev.1
  have hcol0 : 0 < H.width → (prev.getD 0 []).length = H.height := by
    intro hw0
    have hl0 : 0 < prev.length := by omega
    have hmem : prev.getD 0 [] ∈ prev := by
      rw [List.getD_eq_get?, List.get?_eq_get hl0]
      exact List.get_mem prev 0 hl0
    exact (hprev.2 _ hmem).1
  have hts : calculateDelta prev curr cs =
      (deltaTriples prev curr cs).flatMap fun t => t.1 :: t.2.1 :: t.2.2 :=
    calculateDelta_eq_flatMap prev curr cs
  have htsne : deltaTriples prev curr cs ≠ [] := by
    intro hnil
    apply hne
    rw [hts, hnil]
    rfl
  have hcell_len : ∀ t ∈ deltaTriples prev curr cs, t.2.2.length = cs :=
    deltaTriples_cell_len H.width H.height cs prev curr hcurr hWl hcol0
  have hDlen : (calculateDelta prev curr cs).length =
      (deltaTriples prev curr cs).length * (2 + cs) := by
    rw [hts]
    exact flatMap_blocks_length _ _ hcell_len
  have hntpos : 0 < (deltaTriples prev curr cs).length :=
    List.length_pos.mpr htsne
  have hntle : (deltaTriples prev curr cs).length ≤ H.width * H.height := by
    have h1 := deltaTriples_length_le prev curr cs
    by_cases hw0 : 0 < H.width
    · rw [hWl, hcol0 hw0] at h1
      exact h1
    · have hwz : H.width = 0 := by omega
      rw [hWl, hwz] at h1
      omega
  have hcc : (calculateDelta prev curr cs).length / (2 + cs) =
      (deltaTriples prev curr cs).length := by
    rw [hDlen]
    exact Nat.mul_div_cancel _ (by omega)
  have hccB : (deltaTriples prev curr cs).length < 65536 := by omega
  have hDbytes : ∀ v ∈ calculateDelta prev curr cs, v < 256 :=
    calculateDelta_bytes H.width H.height cs prev curr hprev hcurr hw hh hcurrB
  have hmapid : (calculateDelta prev curr cs).map (· % 256) =
      calculateDelta prev curr cs := map_mod_id _ hDbytes
  rw [frameTransform_type1]
  simp only [List.getD_cons_zero, List.getD_cons_succ, List.drop_succ_cons,
    List.drop_zero]
  rw [hcc]
  have hcount : (deltaTriples prev curr cs).length / 256 % 256 * 256 +
      (deltaTriples prev curr cs).length % 256 =
      (deltaTriples prev curr cs).length := by omega
  rw [hcount, if_neg (by omega), ← hcseq, hmapid, ← hDlen,
    decompress_compress _ hDbytes,
    applyChanges_eq_applyTriples H.width H.height cs hcs (deltaTriples prev curr cs)
      (calculateDelta prev curr cs) 0 prev (by rw [List.drop_zero]; exact hts) hcell_len]
  exact applyTriples_deltaTriples H.width H.height cs hcs prev curr hprev hcurr

theorem calculateDelta_length_le (w h cs : Nat) (prev curr : Grid)
    (hprev : GridShape prev w h cs) (hcurr : GridShape curr w h cs) :
    (calculateDelta prev curr cs).length ≤ w * h * (2 + cs) := by
  have hWl : prev.length = w := hprev.1
  have hcol0 : 0 < w → (prev.getD 0 []).length = h := by
    intro hw0
    have hl0 : 0 < prev.length := by omega
    have hmem : prev.getD 0 [] ∈ prev := by
      rw [List.getD_eq_get?, List.get?_eq_get hl0]
      exact List.get_mem prev 0 hl0
    exact (hprev.2 _ hmem).1
  have hcell_len : ∀ t ∈ deltaTriples prev curr cs, t.2.2.length = cs :=
    deltaTriples_cell_len w h cs prev curr hcurr hWl hcol0
  have hDlen : (calculateDelta prev curr cs).length =
      (deltaTriples prev curr cs).length * (2 + cs) := by
    rw [calculateDelta_eq_flatMap]
    exact flatMap_blocks_length _ _ hcell_len
  have hnt : (deltaTriples prev curr cs).length ≤ w * h := by
    have h1 := deltaTriples_length_le prev curr cs
    by_cases hw0 : 0 < w
    · rw [hWl, hcol0 hw0] at h1
      exact h1
    · have hwz : w = 0 := by omega
      rw [hWl, hwz] at h1
      omega
  rw [hDlen]
  exact Nat.mul_le_mul_right _ hnt

/-- The complete effect of submitting a grid sequence to a fresh
encoder: frame count and record count equal the number of submitted
grids, every record has an in-range type byte, in-range data bytes and
a length that fits the 32-bit length field, the snapshot tracks the
last processed grid, and — the heart of the round trip — replaying the
emitted records (as the decoder will see them) reproduces, step by
step, exactly the processed versions of the submitted grids. -/
theorem encodeRun_spec (e0 : EncoderState)
    (hfr0 : e0.frames = []) (hkf0 : e0.lastKeyframe = none) (hfc0 : e0.frameCount = 0)
    (hw : e0.width ≤ 256) (hh : e0.height ≤ 256) (hwh : e0.width * e0.height ≤ 65535)
    (H : TXAHeader) (hHw : H.width = e0.width) (hHh : H.height = e0.height)
    (hHcm : H.colorMode = e0.colorMode) :
    ∀ gs : List Grid,
      (∀ g ∈ gs, Dims g e0.width e0.height ∧ ∀ col ∈ g, ∀ c ∈ col, ∀ b ∈ c, b < 256) →
      (gs.foldl addFrame e0).frameCount = gs.length ∧
      (gs.foldl addFrame e0).frames.length = gs.length ∧
      (∀ f ∈ (gs.foldl addFrame e0).frames, f.type < 2 ∧ (∀ b ∈ f.data, b < 256) ∧
        f.data.length < 4294967296) ∧
      (gs = [] → (gs.foldl addFrame e0).lastKeyframe = none) ∧
      (gs ≠ [] → (gs.foldl addFrame e0).lastKeyframe =
        some (processGrid e0.colorMode e0.lumBits (gs.getD (gs.length - 1) []))) ∧
      (∀ i, i < gs.length →
        pureGrid H ((gs.foldl addFrame e0).frames.map fun f =>
          (⟨f.type % 256, f.data⟩ : TXAFrame)) (i + 1) =
        processGrid e0.colorMode e0.lumBits (gs.getD i [])) := by
  intro gs
  induction gs using List.reverseRecOn with
  | nil =>
    intro _
    refine ⟨hfc0, by rw [List.foldl_nil, hfr0]; rfl, ?_, fun _ => hkf0,
      fun hne => absurd rfl hne, ?_⟩
    · rw [List.foldl_nil, hfr0]
      intro f hf
      simp at hf
    · intro i hi
      simp at hi
  | append_singleton gs g ih =>
    intro hgood
    have hgoodgs : ∀ g' ∈ gs, Dims g' e0.width e0.height ∧
        ∀ col ∈ g', ∀ c ∈ col, ∀ b ∈ c, b < 256 :=
      fun g' hg' => hgood g' (List.mem_append_left _ hg')
    have hgoodg : Dims g e0.width e0.height ∧ ∀ col ∈ g, ∀ c ∈ col, ∀ b ∈ c, b < 256 :=
      hgood g (List.mem_append_right _ (List.mem_singleton.mpr rfl))
    obtain ⟨ihfc, ihlen, ihbounds, ihkfnil, ihkfsome, ihpure⟩ := ih hgoodgs
    obtain ⟨hcw, hch, hccm, hclb, hcki, _, _, _, _, _, _⟩ := foldl_addFrame_config gs e0
    have hfold : (gs ++ [g]).foldl addFrame e0 = addFrame (gs.foldl addFrame e0) g := by
      rw [List.foldl_append]
      rfl
    have hlenm : ((gs.foldl addFrame e0).frames.map fun f =>
        (⟨f.type % 256, f.data⟩ : TXAFrame)).length = gs.length := by
      rw [List.length_map, ihlen]
    have hgetlast : (gs ++ [g]).getD ((gs ++ [g]).length - 1) [] = g := by
      rw [List.length_append, List.length_singleton,
        show gs.length + 1 - 1 = gs.length from by omega,
        List.getD_append_right _ _ _ _ (Nat.le_refl _), Nat.sub_self]
      rfl
    have hcs13 : (if e0.colorMode = 0 then 1 else 3) = 1 ∨
        (if e0.colorMode = 0 then 1 else 3) = 3 := by
      split <;> simp
    have hQshape : GridShape (processGrid e0.colorMode e0.lumBits g) e0.width e0.height
        (if e0.colorMode = 0 then 1 else 3) :=
      processGrid_shape _ _ _ _ _ hgoodg.1
    have hQbytes : ∀ col ∈ processGrid e0.colorMode e0.lumBits g, ∀ c ∈ col,
        ∀ b ∈ c, b < 256 := processGrid_bytes _ _ _ hgoodg.2
    have hG : Dims (pureGrid H ((gs.foldl addFrame e0).frames.map fun f =>
          (⟨f.type % 256, f.data⟩ : TXAFrame)) gs.length) e0.width e0.height ∧
        (gs ≠ [] → pureGrid H ((gs.foldl addFrame e0).frames.map fun f =>
          (⟨f.type % 256, f.data⟩ : TXAFrame)) gs.length =
          processGrid e0.colorMode e0.lumBits (gs.getD (gs.length - 1) [])) := by
      cases hgs : gs with
      | nil =>
        subst hgs
        rw [List.foldl_nil, hfr0]
        refine ⟨?_, fun hne => absurd rfl hne⟩
        show Dims (initGridOf H) e0.width e0.height
        rw [← hHw, ← hHh]
        exact initGridOf_dims H
      | cons g0 gs0 =>
        rw [← hgs]
        have hlpos : 0 < gs.length := by rw [hgs]; simp
        have hp := ihpure (gs.length - 1) (by omega)
        rw [show gs.length - 1 + 1 = gs.length from by omega] at hp
        have hmem : gs.getD (gs.length - 1) [] ∈ gs := by
          rw [List.getD_eq_get?, List.get?_eq_get (by omega)]
          exact List.get_mem gs _ (by omega)
        refine ⟨?_, fun _ => hp⟩
        rw [hp]
        exact (processGrid_shape _ _ _ _ _ (hgoodgs _ hmem).1).dims
    have hstep : ∃ f : EncodedFrame,
        (addFrame (gs.foldl addFrame e0) g).frames =
          (gs.foldl addFrame e0).frames ++ [f] ∧
        f.type < 2 ∧ (∀ b ∈ f.data, b < 256) ∧ f.data.length < 4294967296 ∧
        (addFrame (gs.foldl addFrame e0) g).frameCount =
          (gs.foldl addFrame e0).frameCount + 1 ∧
        (addFrame (gs.foldl addFrame e0) g).lastKeyframe =
          some (processGrid e0.colorMode e0.lumBits g) ∧
        frameTransform H ⟨f.type % 256, f.data⟩
          (pureGrid H ((gs.foldl addFrame e0).frames.map fun f =>
            (⟨f.type % 256, f.data⟩ : TXAFrame)) gs.length) =
          processGrid e0.colorMode e0.lumBits g := by
      by_cases hkey : (gs.foldl addFrame e0).frameCount %
          (gs.foldl addFrame e0).keyframeInterval = 0 ∨
          (gs.foldl addFrame e0).lastKeyframe = none
      · refine ⟨⟨0, compress ((flattenGrid e0.width e0.height e0.colorMode
            (processGrid e0.colorMode e0.lumBits g)).map (· % 256))⟩, ?_, ?_, ?_, ?_,
            ?_, ?_, ?_⟩
        · rw [addFrame_keyframe _ g hkey, hcw, hch, hccm, hclb]
        · norm_num
        · exact compress_lt_256 _
        · have hcells : ∀ col ∈ processGrid e0.colorMode e0.lumBits g, ∀ c ∈ col,
              c.length = (if e0.colorMode = 0 then 1 else 3) :=
            fun col hcol => (hQshape.2 col hcol).2
          have hflen := flattenGrid_length e0.width e0.height e0.colorMode _ rfl _ hcells
          have hcl := compress_length_le ((flattenGrid e0.width e0.height e0.colorMode
            (processGrid e0.colorMode e0.lumBits g)).map (· % 256))
          rw [List.length_map, hflen] at hcl
          have hcs3 : (if e0.colorMode = 0 then 1 else 3) ≤ 3 := by split <;> omega
          have hmul := Nat.mul_le_mul hwh hcs3
          simp only [List.length_cons] at hcl ⊢
          omega
        · rw [addFrame_keyframe _ g hkey]
        · rw [addFrame_keyframe _ g hkey, hccm, hclb]
        · show frameTransform H ⟨0 % 256, compress ((flattenGrid e0.width e0.height
            e0.colorMode (processGrid e0.colorMode e0.lumBits g)).map (· % 256))⟩ _ = _
          rw [show (0 : Nat) % 256 = 0 from rfl, ← hHw, ← hHh, ← hHcm]
          exact frameTransform_keyframe H e0.lumBits g _
            (by rw [hHw, hHh]; exact hgoodg.1) hgoodg.2
            (by rw [hHw, hHh]; exact hG.1)
      · have hkfne : (gs.foldl addFrame e0).lastKeyframe ≠ none := by
          intro hc
          exact hkey (Or.inr hc)
        have hgsne : gs ≠ [] := by
          intro hnil
          exact hkfne (ihkfnil hnil)
        have hlast : (gs.foldl addFrame e0).lastKeyframe =
            some (processGrid e0.colorMode e0.lumBits (gs.getD (gs.length - 1) [])) :=
          ihkfsome hgsne
        have hlastD : (gs.foldl addFrame e0).lastKeyframe.getD [] =
            processGrid e0.colorMode e0.lumBits (gs.getD (gs.length - 1) []) := by
          rw [hlast]
          rfl
        have hmem : gs.getD (gs.length - 1) [] ∈ gs := by
          have hlpos : 0 < gs.length := List.length_pos.mpr hgsne
          rw [List.getD_eq_get?, List.get?_eq_get (by omega)]
          exact List.get_mem gs _ (by omega)
        have hPshape : GridShape (processGrid e0.colorMode e0.lumBits
            (gs.getD (gs.length - 1) [])) e0.width e0.height
            (if e0.colorMode = 0 then 1 else 3) :=
          processGrid_shape _ _ _ _ _ (hgoodgs _ hmem).1
        have hGP : pureGrid H ((gs.foldl addFrame e0).frames.map fun f =>
            (⟨f.type % 256, f.data⟩ : TXAFrame)) gs.length =
            processGrid e0.colorMode e0.lumBits (gs.getD (gs.length - 1) []) :=
          hG.2 hgsne
        by_cases hD : calculateDelta
            (processGrid e0.colorMode e0.lumBits (gs.getD (gs.length - 1) []))
            (processGrid e0.colorMode e0.lumBits g)
            (if e0.colorMode = 0 then 1 else 3) = []
        · refine ⟨⟨1, [0, 0]⟩, ?_, ?_, ?_, ?_, ?_, ?_, ?_⟩
          · rw [addFrame_delta _ g hkey, hcw, hch, hccm, hclb, hlastD, if_pos hD]
          · norm_num
          · intro b hb
            simp only [List.mem_cons, List.not_mem_nil, or_false] at hb
            rcases hb with h | h <;> omega
          · norm_num
          · rw [addFrame_delta _ g hkey]
          · rw [addFrame_delta _ g hkey, hcw, hch, hccm, hclb, hlastD,
              updateLastKeyframe_eq e0.width e0.height _ _ hPshape.dims hQshape.dims]
          · show frameTransform H ⟨1 % 256, [0, 0]⟩ _ = _
            rw [show (1 : Nat) % 256 = 1 from rfl, frameTransform_degenerate, hGP]
            exact calculateDelta_nil_imp_eq e0.width e0.height _ hcs13 _ _
              hPshape hQshape hD
        · refine ⟨⟨1, ((calculateDelta
              (processGrid e0.colorMode e0.lumBits (gs.getD (gs.length - 1) []))
              (processGrid e0.colorMode e0.lumBits g)
              (if e0.colorMode = 0 then 1 else 3)).length /
                (2 + if e0.colorMode = 0 then 1 else 3)) / 256 % 256 ::
              ((calculateDelta
              (processGrid e0.colorMode e0.lumBits (gs.getD (gs.length - 1) []))
              (processGrid e0.colorMode e0.lumBits g)
              (if e0.colorMode = 0 then 1 else 3)).length /
                (2 + if e0.colorMode = 0 then 1 else 3)) % 256 ::
              compress ((calculateDelta
              (processGrid e0.colorMode e0.lumBits (gs.getD (gs.length - 1) []))
              (processGrid e0.colorMode e0.lumBits g)
              (if e0.colorMode = 0 then 1 else 3)).map (· % 256))⟩, ?_, ?_, ?_, ?_,
              ?_, ?_, ?_⟩
          · rw [addFrame_delta _ g hkey, hcw, hch, hccm, hclb, hlastD, if_neg hD]
          · norm_num
          · intro b hb
            simp only [List.mem_cons] at hb
            rcases hb with h | h | h
            · rw [h]
              exact Nat.mod_lt _ (by norm_num)
            · rw [h]
              exact Nat.mod_lt _ (by norm_num)
            · exact compress_lt_256 _ b h
          · have hDle := calculateDelta_length_le e0.width e0.height _ _ _
              hPshape hQshape
            have hcl := compress_length_le ((calculateDelta
              (processGrid e0.colorMode e0.lumBits (gs.getD (gs.length - 1) []))
              (processGrid e0.colorMode e0.lumBits g)
              (if e0.colorMode = 0 then 1 else 3)).map (· % 256))
            rw [List.length_map] at hcl
            have hcs5 : (2 + if e0.colorMode = 0 then 1 else 3) ≤ 5 := by
              split <;> omega
            have hmul := Nat.mul_le_mul hwh hcs5
            simp only [List.length_cons]
            omega
          · rw [addFrame_delta _ g hkey]
          · rw [addFrame_delta _ g hkey, hcw, hch, hccm, hclb, hlastD,
              updateLastKeyframe_eq e0.width e0.height _ _ hPshape.dims hQshape.dims]
          · show frameTransform H ⟨1 % 256, _⟩ _ = _
            rw [show (1 : Nat) % 256 = 1 from rfl, hGP]
            have := frameTransform_delta H (if e0.colorMode = 0 then 1 else 3)
              (by rw [hHcm]) _ _
              (by rw [hHw, hHh]; exact hPshape)
              (by rw [hHw, hHh]; exact hQshape)
              hQbytes
              (by rw [hHw]; exact hw) (by rw [hHh]; exact hh)
              (by rw [hHw, hHh]; exact hwh) hD
            exact this
    obtain ⟨f, hsnoc, hft, hfb, hfl, hfc, hlkf, htrans⟩ := hstep
    refine ⟨?_, ?_, ?_, ?_, ?_, ?_⟩
    · rw [hfold, hfc, ihfc, List.length_append, List.length_singleton]
    · rw [hfold, hsnoc, List.length_append, ihlen, List.length_append]
      rfl
    · rw [hfold, hsnoc]
      intro f' hf'
      rcases List.mem_append.mp hf' with h | h
      · exact ihbounds f' h
      · rw [List.mem_singleton.mp h]
        exact ⟨hft, hfb, hfl⟩
    · intro hc
      exact absurd hc (by simp)
    · intro _
      rw [hfold, hlkf, hgetlast]
    · intro i hi
      rw [List.length_append, List.length_singleton] at hi
      rw [hfold, hsnoc, List.map_append]
      rcases Nat.lt_or_ge i gs.length with hlt | hge
      · rw [pureGrid_append H _ _ (i + 1) (by rw [hlenm]; omega), ihpure i hlt,
          List.getD_append _ _ _ _ hlt]
      · have hieq : i = gs.length := by omega
        subst hieq
        rw [pureGrid, List.map_cons, List.map_nil,
          List.getD_append_right _ _ _ _ (by rw [hlenm]),
          pureGrid_append H _ _ gs.length (by rw [hlenm])]
        rw [hlenm, Nat.sub_self, List.getD_cons_zero]
        rw [show (gs ++ [g]).getD gs.length [] = g from by
          rw [List.getD_append_right _ _ _ _ (Nat.le_refl _), Nat.sub_self]
          rfl]
        exact htrans

/-! ### C1: amended round trip, counterexample and witness -/

/-- Encoder configuration of the C1 counterexample: a fresh encoder for
a 257×1 gradient animation (one cell wider than a delta record's 1-byte
x-coordinate can address). -/
def C1ce_encoder : EncoderState :=
  { width := 257, height := 1, fps := 30, colorMode := 0, characters := [32],
    keyframeInterval := 30, bgColor := ⟨0, 0, 0⟩, changeSpeed := 2, canvasRatio := 0,
    lumBits := 8, frames := [], colorPalette := [], lastKeyframe := none, frameCount := 0 }

/-- First submitted grid: 257 columns of one zero cell. -/
def C1ce_g0 : Grid := List.replicate 257 [[0]]

/-- Second submitted grid: like the first, but cell `(256, 0)` holds 5. -/
def C1ce_g1 : Grid := (List.replicate 257 [[0]]).set 256 [[5]]

theorem C1ce_rle2 : rleEncode [0, 0] = [2, 0, 0] := by
  rw [rleEncode, if_neg (by decide)]
  show (2 : Nat) :: ([0, 0] ++ rleEncode []) = [2, 0, 0]
  rw [rleEncode]
  rfl

set_option maxRecDepth 10000 in
theorem C1ce_rle_kf : rleEncode (0 :: List.replicate 256 0) = [255, 255, 0, 2, 0, 0] := by
  rw [rleEncode, if_pos (by decide)]
  show (255 : Nat) :: 255 :: 0 :: rleEncode [0, 0] = [255, 255, 0, 2, 0, 0]
  rw [C1ce_rle2]

theorem C1ce_rle_delta : rleEncode [0, 0, 5] = [3, 0, 0, 5] := by
  rw [rleEncode, if_neg (by decide)]
  show (3 : Nat) :: ([0, 0, 5] ++ rleEncode []) = [3, 0, 0, 5]
  rw [rleEncode]
  rfl

set_option maxRecDepth 40000 in
set_option maxHeartbeats 1600000 in
theorem C1ce_fold :
    ([C1ce_g0, C1ce_g1] : List Grid).foldl addFrame C1ce_encoder = { C1ce_encoder with
      frames := [⟨0, compress ((flattenGrid 257 1 0 (processGrid 0 8 C1ce_g0)).map
          (· % 256))⟩,
        ⟨1, 0 :: 1 :: compress ((calculateDelta (processGrid 0 8 C1ce_g0)
          (processGrid 0 8 C1ce_g1) 1).map (· % 256))⟩],
      lastKeyframe := some (updateLastKeyframe 257 1 (processGrid 0 8 C1ce_g0)
        (processGrid 0 8 C1ce_g1)),
      frameCount := 2 } := rfl

set_option maxRecDepth 40000 in
set_option maxHeartbeats 1600000 in
theorem C1ce_bytes :
    encode (([C1ce_g0, C1ce_g1] : List Grid).foldl addFrame C1ce_encoder) =
      [84, 88, 65, 0, 2, 0, 1, 1, 1, 0, 30, 2, 0, 0, 0, 1, 0, 0, 0, 0, 0, 20, 0, 8,
       0, 0, 0, 0, 0, 0, 0, 0,
       32,
       0, 6, 0, 0, 0, 255, 255, 0, 2, 0, 0,
       1, 6, 0, 0, 0, 0, 1, 3, 0, 0, 5] := by
  rw [C1ce_fold]
  have hkf : compress ((flattenGrid 257 1 0 (processGrid 0 8 C1ce_g0)).map (· % 256)) =
      [255, 255, 0, 2, 0, 0] := C1ce_rle_kf
  have hdl : compress ((calculateDelta (processGrid 0 8 C1ce_g0)
      (processGrid 0 8 C1ce_g1) 1).map (· % 256)) = [3, 0, 0, 5] := C1ce_rle_delta
  rw [hkf, hdl]
  have hcs20 : (round ((2 : ℚ) * 10)).toNat % 256 = 20 := by
    have h20 : round ((2 : ℚ) * 10) = 20 := by norm_num [round]
    rw [h20]
    rfl
  rw [← hcs20]
  rfl

set_option maxRecDepth 40000 in
theorem C1ce_hrd1 : decompress [255, 255, 0, 2, 0, 0] 257 = List.replicate 257 0 := by
  unfold decompress
  rw [rleDecode_run_step 255 0 [2, 0, 0] 257 (by omega) (by omega),
    show ([2, 0, 0] : List Nat) = 2 :: ([0, 0] ++ []) from rfl,
    rleDecode_lit_step 2 [0, 0] [] 2 (by omega) rfl (by omega) (by omega),
    rleDecode_nil]
  decide

theorem C1ce_hrd2 : decompress [3, 0, 0, 5] 3 = [0, 0, 5] := by
  unfold decompress
  rw [show ([3, 0, 0, 5] : List Nat) = 3 :: ([0, 0, 5] ++ []) from rfl,
    rleDecode_lit_step 3 [0, 0, 5] [] 3 (by omega) rfl (by omega) (by omega),
    rleDecode_nil]
  rfl

set_option maxRecDepth 200000 in
set_option maxHeartbeats 3200000 in
theorem C1ce_hgf :
    (getFrame (parse initialDecoder
      [84, 88, 65, 0, 2, 0, 1, 1, 1, 0, 30, 2, 0, 0, 0, 1, 0, 0, 0, 0, 0, 20, 0, 8,
       0, 0, 0, 0, 0, 0, 0, 0,
       32,
       0, 6, 0, 0, 0, 255, 255, 0, 2, 0, 0,
       1, 6, 0, 0, 0, 0, 1, 3, 0, 0, 5]).1 ((1 : Nat) : Int)).2 =
    some (applyChanges 257 1 1 (decompress [3, 0, 0, 5] 3) 0 1
      (applyKeyframeGrid 257 1 1 (decompress [255, 255, 0, 2, 0, 0] 257)
        (initGridOf ⟨2, 0, 257, 1, 30, 2, 1, 0, ⟨0, 0, 0⟩, ((20 : Nat) : ℚ) / 10, 0, 8⟩))) :=
  rfl

/-- C1 counterexample, refuting the claim as stated (no bound on the
configured width): on a fresh 257×1 gradient encoder, submitting an
all-zero grid and then a grid whose only lit cell is at `x = 256`,
encoding, parsing with a fresh decoder and requesting frame 1 does NOT
return the processed second grid — the delta record stores `x % 256`,
so the change lands at column 0 instead of column 256. -/
theorem C1_counterexample :
    ¬ ((getFrame (parse initialDecoder (encode (([C1ce_g0, C1ce_g1] : List Grid).foldl
        addFrame C1ce_encoder))).1 ((1 : Nat) : Int)).2 =
      some (processGrid C1ce_encoder.colorMode C1ce_encoder.lumBits
        (([C1ce_g0, C1ce_g1] : List Grid).getD 1 []))) := by
  rw [C1ce_bytes, C1ce_hgf, C1ce_hrd1, C1ce_hrd2]
  decide

set_option maxHeartbeats 3200000 in
/-- C1 (amended).  End-to-end round trip, for configurations that fit
the format: starting from a fresh encoder whose width and height are at
most 256, whose cell count fits the 16-bit delta change counter, whose
color mode, character count, palette size and frame count fit their
header fields, submitting any sequence of well-shaped grids (matching
the configured width and height, all components in 0–255) via
`addFrame`, serializing with `encode`, parsing with `parse`, and
requesting any index `i` below the number of submitted frames with
`getFrame` returns exactly the `i`-th submitted grid after the
encoder's preprocessing (luminance quantization in gradient mode, RGB
truncation to three components otherwise).  Without the width/height
bounds the claim is false (`addFrame` stores delta coordinates modulo
256): see the counterexample. -/
theorem C1_round_trip (e0 : EncoderState) (gs : List Grid) (s : DecoderState) (i : Nat)
    (hfr0 : e0.frames = []) (hkf0 : e0.lastKeyframe = none) (hfc0 : e0.frameCount = 0)
    (hcm : e0.colorMode < 256)
    (hw : e0.width ≤ 256) (hh : e0.height ≤ 256) (hwh : e0.width * e0.height ≤ 65535)
    (hchars : e0.characters.length < 256) (hpal : e0.colorPalette.length < 65536)
    (hcnt : gs.length < 4294967296)
    (hgs : ∀ g ∈ gs, Dims g e0.width e0.height ∧ ∀ col ∈ g, ∀ c ∈ col, ∀ b ∈ c, b < 256)
    (hi : i < gs.length) :
    (getFrame (parse s (encode (gs.foldl addFrame e0))).1 ((i : Nat) : Int)).2 =
      some (processGrid e0.colorMode e0.lumBits (gs.getD i [])) := by
  obtain ⟨hcw, hch, hccm, hclb, _, _, hcchars, hcpal, _, _, _⟩ :=
    foldl_addFrame_config gs e0
  have hHw : (encHeader (gs.foldl addFrame e0)).width = e0.width := hcw
  have hHh : (encHeader (gs.foldl addFrame e0)).height = e0.height := hch
  have hHcm : (encHeader (gs.foldl addFrame e0)).colorMode = e0.colorMode := hccm
  obtain ⟨hfc, hflen, hfbounds, _, _, hpure⟩ :=
    encodeRun_spec e0 hfr0 hkf0 hfc0 hw hh hwh (encHeader (gs.foldl addFrame e0))
      hHw hHh hHcm gs hgs
  obtain ⟨_, hdech, hdecf, hdeci, hdecg⟩ :=
    parse_encode s (gs.foldl addFrame e0)
      (by rw [hccm]; exact hcm)
      (by rw [hcw]; omega) (by rw [hch]; omega)
      (by rw [hcchars]; exact hchars)
      (by rw [hcpal]; exact hpal)
      (by rw [hflen]; exact hcnt)
      (fun f hf => (hfbounds f hf).2.2)
  have hinv : DecInv (parse s (encode (gs.foldl addFrame e0))).1 := by
    refine ⟨?_, ?_, ?_, ?_⟩
    · rw [hdech]
      simp
    · rw [hdeci]
    · rw [hdeci, hdecf, List.length_map, hflen]
      exact neg_one_lt_natCast _
    · rw [hdecg, hdech, hdeci]
      rfl
  have hgf := getFrame_in_range (parse s (encode (gs.foldl addFrame e0))).1
    ((i : Nat) : Int) hinv (Int.natCast_nonneg i)
    (by rw [hdecf, List.length_map, hflen]; exact_mod_cast hi)
  rw [hgf]
  show some (pureGrid
      ((parse s (encode (gs.foldl addFrame e0))).1.header.getD zeroHeader)
      (parse s (encode (gs.foldl addFrame e0))).1.frames
      (((i : Nat) : Int) + 1).toNat) = _
  rw [hdech, hdecf]
  simp only [Option.getD_some]
  rw [show (((i : Nat) : Int) + 1).toNat = i + 1 from by omega]
  exact congrArg some (hpure i hi)

instance (g : Grid) (w h : Nat) : Decidable (Dims g w h) := by
  unfold Dims
  infer_instance

/-- Fresh encoder for the C1 witness: a 1×1 gradient animation. -/
def C1_encoder : EncoderState :=
  { width := 1, height := 1, fps := 30, colorMode := 0, characters := [32],
    keyframeInterval := 30, bgColor := ⟨0, 0, 0⟩, changeSpeed := 2, canvasRatio := 0,
    lumBits := 8, frames := [], colorPalette := [], lastKeyframe := none, frameCount := 0 }

/-- C1 witness: the amended round trip at the concrete one-frame 1×1
session `[[[[7]]]]`, requested at index 0. -/
theorem C1_witness :
    (getFrame (parse initialDecoder (encode (([[[[7]]]] : List Grid).foldl addFrame
      C1_encoder))).1 ((0 : Nat) : Int)).2 =
      some (processGrid C1_encoder.colorMode C1_encoder.lumBits
        (([[[[7]]]] : List Grid).getD 0 [])) :=
  C1_round_trip C1_encoder [[[[7]]]] initialDecoder 0 rfl rfl rfl (by decide) (by decide)
    (by decide) (by decide) (by decide) (by decide) (by decide) (by decide) (by decide)

end TXA
